import Mathlib

/-!
# checker: the crawl engine of `src/checker.go`

A shallow embedding of the closures that `main` registers on the collector
(`AddURL`, `VisitURL`, the `OnError` handler, the `OnScraped` handler,
`TrimSpace`) together with the delay constants `main` computes and the
expression it gives to `colly.DisallowedURLFilters`, followed by theorems about
them.

Conventions of the embedding.

* Go's `int`, `int64` and `time.Duration` are `Int` with every arithmetic result
  passed through `wrap64`; `uint64` is `Nat` reduced modulo `2 ^ 64`.
* A `*colly.Context` is an index into `Engine.store`; `colly.NewContext()`
  allocates a new index, so that the request's context and the response's
  context can be told apart after `VisitURL` has replaced the former.
* The collector library is not part of the repository; the two library calls
  whose results the closures read (`Request.AbsoluteURL`, `Request.Visit`) are
  fields of `Collector`.
* `r.Visit` is taken to return as soon as the library has accepted or refused the
  request; the handlers for the response to that request run as later steps, as
  they do when the collector is asynchronous (`Threads > 1`).
* Console output (`fmt.Printf`) is not modelled.
-/

namespace Checker

/-! ## Machine integers -/

/-- Two's complement reduction of an integer to the range of Go's `int64`. -/
def wrap64 (x : Int) : Int :=
  (x + 9223372036854775808) % 18446744073709551616 - 9223372036854775808

/-- Reduction of a natural number to the range of Go's `uint64`. -/
def wrapU64 (x : Nat) : Nat := x % 18446744073709551616

/-! ## Data model -/

/-- The `Params` struct (checker.go:21). -/
structure Params where
  MaxPages : Nat
  MaxDepth : Int
  MaxRedirects : Int
  Threads : Int
  Delay : Int
deriving DecidableEq, Repr

/-- The `Link` struct (checker.go:33); `Link{url: u}` leaves `redirects` at zero. -/
structure Link where
  url : String
  redirects : Int := 0
deriving DecidableEq, Repr

/-- A `colly.Context`, restricted to the keys this program ever stores. Each key
holds values of one Go type only (`source`, `canonical`, `title`, `h1`,
`description`: `string`; `redirects`: `int`; `links`: `[]Link`), so a key is a
field and an absent key is `none`. -/
structure Context where
  source : Option String := none
  redirects : Option Int := none
  canonical : Option String := none
  title : Option String := none
  h1 : Option String := none
  description : Option String := none
  links : Option (List Link) := none
deriving DecidableEq, Repr

/-- The result of `colly.NewContext()`: no key is set. -/
def NewContext : Context := {}

/-- The method `ctx.Get(key)` on a string slot: the empty string when the key is absent. -/
def Get (v : Option String) : String := v.getD ""

/-- The contexts allocated so far; a `*colly.Context` is a position in this list. -/
abbrev Store := List Context

/-- Dereference of a context pointer. -/
def Store.read (s : Store) (p : Nat) : Context := s.getD p NewContext

/-- In-place update of the context behind a pointer (`ctx.Put`). -/
def Store.update (s : Store) (p : Nat) (f : Context → Context) : Store :=
  s.set p (f (s.read p))

/-- A `*colly.Request`: the fields the closures read, and `Ctx`, which `VisitURL` overwrites. -/
structure Request where
  ID : Nat
  URL : String
  Depth : Int
  Ctx : Nat
deriving DecidableEq, Repr

/-- A `*colly.Response`: status, the `Location` header, its own context pointer and its request. -/
structure Response where
  StatusCode : Int
  Location : String
  Ctx : Nat
  Request : Request
deriving DecidableEq, Repr

/-- One call of `r.Visit(url)`: the URL asked for, the context and depth handed to
the new request, the redirect count stored in that context, and whether the
library returned a nil error. -/
structure Dispatch where
  url : String
  Ctx : Nat
  Depth : Int
  redirects : Int
  accepted : Bool
deriving DecidableEq, Repr

/-- The two library calls whose results the closures depend on.
`AbsoluteURL base ref` is `r.AbsoluteURL(ref)` for a request with URL `base`;
`Visit earlier r url` tells whether `r.Visit(url)` returns a nil error, given the
dispatches made before it. -/
structure Collector where
  AbsoluteURL : String → String → String
  Visit : List Dispatch → Request → String → Bool

/-- The mutable state the closures of `main` share: the counter `total`,
`LimitRule.RandomDelay`, the contexts, the rows given to `csv.Write`, the calls of
`r.Visit` and the requests handed to `r.Request.Retry()`. -/
structure Engine where
  total : Nat
  RandomDelay : Int
  store : Store
  rows : List (List String)
  visits : List Dispatch
  retries : List Nat
deriving DecidableEq, Repr

/-! ## Delay constants (checker.go:124-132) -/

/-- The nanosecond count of `time.Millisecond`. -/
def Millisecond : Int := 1000000

/-- The three durations `main` computes before the crawl starts. -/
structure Delays where
  timeDelayStart : Int
  timeDelayIncDec : Int
  timeDelayMax : Int
deriving DecidableEq, Repr

/-- The constant `timeDelayStart := time.Duration(params.Delay) * time.Millisecond`. -/
def timeDelayStart (params : Params) : Int := wrap64 (params.Delay * Millisecond)

/-- The constant `timeDelayMax := 10 * time.Duration(params.Delay) * time.Millisecond`. -/
def timeDelayMax (params : Params) : Int := wrap64 (wrap64 (10 * params.Delay) * Millisecond)

/-- The delay constants of `main`. The division
`timeDelayStart / time.Duration(params.Threads)` truncates towards zero and
panics for `Threads = 0`, in which case no handler is ever installed. -/
def delays (params : Params) : Option Delays :=
  if params.Threads = 0 then none
  else some
    { timeDelayStart := timeDelayStart params
      timeDelayIncDec := wrap64 (Int.tdiv (timeDelayStart params) params.Threads)
      timeDelayMax := timeDelayMax params }

/-- The header row written before the crawl starts (checker.go:101). -/
def header : List String :=
  ["code", "url", "redirect", "source", "title", "h1", "description"]

/-- The state when `c.Visit(defaultURL.String())` is called: `total` is 1, the
random delay is `timeDelayStart`, only the header row has been written, and the
seed request owns the one context allocated so far. -/
def Engine.initial (d : Delays) : Engine :=
  { total := 1
    RandomDelay := d.timeDelayStart
    store := [NewContext]
    rows := [header]
    visits := []
    retries := [] }

/-! ## TrimSpace (checker.go:43-47) -/

/-- The class `\s` of Go's regexp package: tab, newline, form feed, carriage return, space. -/
def isRegexSpace (c : Char) : Bool :=
  c.toNat = 9 || c.toNat = 10 || c.toNat = 12 || c.toNat = 13 || c.toNat = 32

/-- Go's `unicode.IsSpace`, the set `strings.TrimSpace` removes. -/
def isUnicodeSpace (c : Char) : Bool :=
  (9 ≤ c.toNat && c.toNat ≤ 13) || c.toNat = 32 || c.toNat = 133 || c.toNat = 160
    || c.toNat = 5760 || (8192 ≤ c.toNat && c.toNat ≤ 8202) || c.toNat = 8232
    || c.toNat = 8233 || c.toNat = 8239 || c.toNat = 8287 || c.toNat = 12288

/-- The call `spaceRegex.ReplaceAllString(s, " ")` for the pattern `\s+`: every
maximal run of `\s` characters becomes one space. The flag tells whether the
previous character belonged to a run. -/
def replaceSpaces : Bool → List Char → List Char
  | _, [] => []
  | inRun, c :: cs =>
    if isRegexSpace c then
      if inRun then replaceSpaces true cs else Char.ofNat 32 :: replaceSpaces true cs
    else c :: replaceSpaces false cs

/-- Go's `strings.TrimSpace` on a list of characters. -/
def trimSpaceChars (cs : List Char) : List Char :=
  ((cs.dropWhile isUnicodeSpace).reverse.dropWhile isUnicodeSpace).reverse

/-- The closure `TrimSpace`: collapse runs of `\s`, then trim. -/
def TrimSpace (s : String) : String :=
  String.mk (trimSpaceChars (replaceSpaces false s.data))

/-! ## The text transformation as the specification words it -/

/-- The words of a text: its maximal runs of characters outside `\s`. -/
def textWords (cs : List Char) : List (List Char) :=
  (cs.splitOnP isRegexSpace).filter (fun w => !w.isEmpty)

/-- The transformation T in the words of the specification, "collapses every run
of whitespace to one space and trims": the words of the text in their order,
one space between neighbours, and no white space left at either end. It is
written without reference to `TrimSpace`, to be compared with it. -/
def collapseAndTrim (cs : List Char) : List Char :=
  (([Char.ofNat 32].intercalate (textWords cs)).dropWhile isUnicodeSpace).rdropWhile
    isUnicodeSpace

/-! ## AddURL and VisitURL (checker.go:163-194) -/

/-- The closure `AddURL`: append the link to the `links` slot, creating it when absent. -/
def AddURL (s : Store) (ctx : Nat) (link : Link) : Store :=
  s.update ctx (fun c =>
    { c with links := some ((match c.links with | none => [] | some ls => ls) ++ [link]) })

/-- The closure `VisitURL`. When neither limit is exceeded the request gets a new
context holding `source` and `redirects`, `r.Visit(link.url)` is called, and
`total` is incremented when the call returned no error. The request is returned
because its `Ctx` field has been overwritten. -/
def VisitURL (params : Params) (c : Collector) (e : Engine) (r : Request) (link : Link) :
    Engine × Request :=
  if link.redirects > params.MaxRedirects ∨ e.total > params.MaxPages then (e, r)
  else
    let p := e.store.length
    let s0 := e.store ++ [NewContext]
    let r1 : Request := { r with Ctx := p }
    let s1 := s0.update r1.Ctx (fun x => { x with source := some r1.URL })
    let s2 := s1.update r1.Ctx (fun x => { x with redirects := some link.redirects })
    let ok := c.Visit e.visits r1 link.url
    let e1 : Engine :=
      { e with
        store := s2
        visits := e.visits ++
          [{ url := link.url, Ctx := r1.Ctx, Depth := wrap64 (r1.Depth + 1),
             redirects := link.redirects, accepted := ok }] }
    if ok then ({ e1 with total := wrapU64 (e1.total + 1) }, r1) else (e1, r1)

/-! ## The OnError handler (checker.go:197-276) -/

/-- The statuses of the first `case` of the handler. -/
def isRedirect (status : Int) : Bool :=
  status = 301 || status = 302 || status = 307 || status = 308

/-- The statuses of the second `case` of the handler. -/
def isOverload (status : Int) : Bool :=
  status = 429 || status = 502 || status = 503 || status = 504

/-- The type switch on `r.Request.Ctx.GetAny("redirects")` (checker.go:215-220):
the stored `int`, or zero when the key is absent. -/
def ctxRedirects (x : Context) : Int :=
  match x.redirects with
  | some n => n
  | none => 0

/-- The handler registered with `c.OnError`. `err` is the error the library
passes (`none` for a nil error). -/
def OnError (params : Params) (d : Delays) (c : Collector) (e : Engine) (r : Response)
    (err : Option String) : Engine × Request :=
  if err.isSome ∧ r.StatusCode = 0 then (e, r.Request)
  else if isRedirect r.StatusCode then
    let location := c.AbsoluteURL r.Request.URL r.Location
    if location = "" then (e, r.Request)
    else
      let redirects : Int := ctxRedirects (e.store.read r.Request.Ctx)
      let v := VisitURL params c e r.Request { url := location, redirects := wrap64 (redirects + 1) }
      ({ v.1 with
          rows := v.1.rows ++
            [[toString r.StatusCode, v.2.URL, location, Get (v.1.store.read r.Ctx).source,
              "", "", ""]] },
        v.2)
  else if isOverload r.StatusCode then
    let e1 : Engine :=
      if e.RandomDelay < d.timeDelayMax then
        { e with RandomDelay := wrap64 (e.RandomDelay + wrap64 (d.timeDelayIncDec * 2)) }
      else e
    ({ e1 with retries := e1.retries ++ [r.Request.ID] }, r.Request)
  else
    ({ e with
        rows := e.rows ++
          [[toString r.StatusCode, r.Request.URL, "", Get (e.store.read r.Ctx).source,
            "", "", ""]] },
      r.Request)

/-! ## The OnScraped handler (checker.go:314-378) -/

/-- The handler registered with `c.OnScraped`. -/
def OnScraped (params : Params) (d : Delays) (c : Collector) (e : Engine) (r : Response) :
    Engine × Request :=
  let e0 : Engine :=
    if r.StatusCode < 400 ∧ e.RandomDelay > d.timeDelayStart then
      { e with RandomDelay := wrap64 (e.RandomDelay + wrap64 (-d.timeDelayIncDec)) }
    else e
  let url := r.Request.URL
  let canonical := Get (e0.store.read r.Request.Ctx).canonical
  if canonical ≠ "" ∧ url ≠ canonical then
    let e1 : Engine :=
      { e0 with
        rows := e0.rows ++ [["310", url, canonical, Get (e0.store.read r.Ctx).source, "", "", ""]] }
    ({ e1 with store := AddURL e1.store r.Request.Ctx { url := canonical } }, r.Request)
  else
    let e1 : Engine :=
      { e0 with
        rows := e0.rows ++
          [[toString r.StatusCode, url, "", Get (e0.store.read r.Ctx).source,
            TrimSpace (Get (e0.store.read r.Ctx).title),
            TrimSpace (Get (e0.store.read r.Ctx).h1),
            TrimSpace (Get (e0.store.read r.Ctx).description)]] }
    match (e1.store.read r.Ctx).links with
    | none => (e1, r.Request)
    | some links =>
      links.foldl (fun (acc : Engine × Request) link => VisitURL params c acc.1 acc.2 link)
        (e1, r.Request)

/-! ## The disallowed-URL filter (checker.go:112-118) -/

/-- The part of Go's regular expression syntax the filter uses: the empty
expression, a literal character, concatenation, alternation, and `$`, which
without the `m` flag matches at the end of the text only. -/
inductive Regex where
  | empty : Regex
  | lit (c : Char) : Regex
  | cat (a b : Regex) : Regex
  | alt (a b : Regex) : Regex
  | endText : Regex
deriving DecidableEq, Repr

/-- All the ways an expression matches at the start of the input, each given by
the input that remains after the match. -/
def Regex.rests : Regex → List Char → List (List Char)
  | .empty, s => [s]
  | .lit _, [] => []
  | .lit c, x :: xs => if x = c then [xs] else []
  | .cat a b, s => (a.rests s).flatMap (fun t => b.rests t)
  | .alt a b, s => a.rests s ++ b.rests s
  | .endText, [] => [[]]
  | .endText, _ :: _ => []

/-- The expression for a run of literal characters. -/
def Regex.literal : List Char → Regex
  | [] => .empty
  | c :: cs => .cat (.lit c) (Regex.literal cs)

/-- The method `MatchString` of a compiled expression: the expression matches
somewhere in the string. -/
def Regex.MatchString (re : Regex) (s : String) : Bool :=
  s.data.tails.any (fun t => !(re.rests t).isEmpty)

/-- The expression `\.(jpg|jpeg|png|webp|gif|svg)$` given to
`colly.DisallowedURLFilters`; it carries no `(?i)` flag. -/
def imageFilter : Regex :=
  .cat (.lit (Char.ofNat 46))
    (.cat
      (.alt (Regex.literal "jpg".data)
        (.alt (Regex.literal "jpeg".data)
          (.alt (Regex.literal "png".data)
            (.alt (Regex.literal "webp".data)
              (.alt (Regex.literal "gif".data) (Regex.literal "svg".data))))))
      .endText)

/-- The collector option `DisallowedURLFilters` as `main` sets it. -/
def DisallowedURLFilters : List Regex := [imageFilter]

/-- The collector's check before a request is dispatched: the request is refused
when one of the `DisallowedURLFilters` matches the string form of its URL. -/
def forbiddenURL (u : String) : Bool :=
  DisallowedURLFilters.any (fun re => re.MatchString u)

/-- The six extensions of the filter, with their dot. -/
def imageExtensions : List String := [".jpg", ".jpeg", ".png", ".webp", ".gif", ".svg"]

/-- The parts of a parsed URL that its string form shows for the URLs the crawler
dispatches: `main` removes the user information and `AbsoluteURL` the fragment. -/
structure URL where
  Scheme : String
  Host : String
  Path : String
  RawQuery : String
deriving DecidableEq, Repr

/-- The string form of a URL: the query, when there is one, follows the path
after a question mark. -/
def URL.toString (u : URL) : String :=
  u.Scheme ++ "://" ++ u.Host ++ u.Path ++ (if u.RawQuery = "" then "" else "?" ++ u.RawQuery)

/-! ## Redirect chains -/

/-- A chain of consecutive responses to one request and the hops that follow it.
The request `r` receives the first response of `hops` (a status and a Location
header) and the OnError handler runs, with the non-nil error the library passes
for such a status. When the handler called `r.Visit`, the request made by that
call (the resolved URL, the depth and the context given to the call) receives
the next response; when it made no call, or no response is left, the chain ends.
The list of responses tells which fetches took place; the verdict `r.Visit`
returned only decides whether `total` was incremented. -/
def redirectChain (params : Params) (d : Delays) (c : Collector) :
    Engine → Request → List (Int × String) → Engine
  | e, _, [] => e
  | e, r, hop :: rest =>
    let out := OnError params d c e
      { StatusCode := hop.1, Location := hop.2, Ctx := r.Ctx, Request := r } (some "redirect")
    match out.1.visits.drop e.visits.length with
    | [v] =>
      redirectChain params d c out.1
        { ID := out.1.visits.length + 1, URL := c.AbsoluteURL r.URL v.url, Depth := v.Depth,
          Ctx := v.Ctx }
        rest
    | _ => out.1

/-! ## Sequences of responses -/

/-- The state after `K` consecutive responses `r` (with library error `err`) have
been handled by OnError; for an overload status each of them is the answer to
the retry of the one before. -/
def afterErrors (params : Params) (d : Delays) (c : Collector) (e : Engine) (r : Response)
    (err : Option String) : Nat → Engine
  | 0 => e
  | K + 1 => (OnError params d c (afterErrors params d c e r err K) r err).1

/-- The state after the responses `rs` have been handled by OnScraped, in order. -/
def scrapedAll (params : Params) (d : Delays) (c : Collector) (e : Engine)
    (rs : List Response) : Engine :=
  rs.foldl (fun acc r => (OnScraped params d c acc r).1) e

/-! ## Columns of a report row -/

/-- The `url` column of a report row (second field of the header). -/
def rowURL (row : List String) : String := row.getD 1 ""

/-- The `source` column of a report row (fourth field of the header). -/
def rowSource (row : List String) : String := row.getD 3 ""

/-! ## Sample inputs -/

/-- A collector that resolves every reference to itself and accepts every dispatch. -/
def acceptAll : Collector :=
  { AbsoluteURL := fun _ ref => ref
    Visit := fun _ _ _ => true }

/-- The command-line defaults of `main` (checker.go:49-53). -/
def defaultParams : Params :=
  { MaxPages := 10000, MaxDepth := 7, MaxRedirects := 5, Threads := 5, Delay := 1000 }

/-- The delay constants for the command-line defaults: 1 s, 200 ms, 10 s. -/
def defaultDelays : Delays :=
  { timeDelayStart := 1000000000, timeDelayIncDec := 200000000, timeDelayMax := 10000000000 }

/-- The page `http://host/dup`, reached from `http://host/`, declaring the canonical
`http://host/orig`: the state when its OnScraped handler starts. -/
def dupEngine : Engine :=
  { total := 2
    RandomDelay := 1000000000
    store :=
      [NewContext,
       { source := some "http://host/", redirects := some 0,
         canonical := some "http://host/orig", title := some "Dup" }]
    rows := [header, ["200", "http://host/", "", "", "Home", "Hi", ""]]
    visits := [{ url := "/dup", Ctx := 1, Depth := 2, redirects := 0, accepted := true }]
    retries := [] }

/-- The 200 response for `http://host/dup`. -/
def dupResponse : Response :=
  { StatusCode := 200, Location := "", Ctx := 1,
    Request := { ID := 2, URL := "http://host/dup", Depth := 2, Ctx := 1 } }

/-- The seed request for `http://host/`, owner of the first context. -/
def seedRequest : Request := { ID := 1, URL := "http://host/", Depth := 1, Ctx := 0 }

/-- A 301 answer to the seed request, pointing to `http://host/b`. -/
def seedRedirect : Response :=
  { StatusCode := 301, Location := "http://host/b", Ctx := 0, Request := seedRequest }

/-- The command-line defaults with `-redirects 3`. -/
def threeRedirects : Params := { defaultParams with MaxRedirects := 3 }

/-- Six consecutive 301 responses, to `/r1` ... `/r6`. -/
def sixHops : List (Int × String) :=
  [(301, "http://host/r1"), (301, "http://host/r2"), (301, "http://host/r3"),
   (301, "http://host/r4"), (301, "http://host/r5"), (301, "http://host/r6")]

/-- The command-line defaults with `-pages 1`. -/
def onePage : Params := { defaultParams with MaxPages := 1 }

/-- The command line `-delay 100 -threads 2`. -/
def slowParams : Params := { defaultParams with Delay := 100, Threads := 2 }

/-- The delay constants for `-delay 100 -threads 2`: 100 ms, 50 ms, 1 s. -/
def slowDelays : Delays :=
  { timeDelayStart := 100000000, timeDelayIncDec := 50000000, timeDelayMax := 1000000000 }

/-- A 503 answer to the seed request. -/
def seedUnavailable : Response :=
  { StatusCode := 503, Location := "", Ctx := 0, Request := seedRequest }

/-- A 200 answer to the seed request. -/
def seedOK : Response :=
  { StatusCode := 200, Location := "", Ctx := 0, Request := seedRequest }

/-- An image whose extension is written in upper case. -/
def upperCaseImage : URL :=
  { Scheme := "http", Host := "host", Path := "/img/a.JPG", RawQuery := "" }

/-- An image whose extension is written in lower case. -/
def lowerCaseImage : URL :=
  { Scheme := "http", Host := "host", Path := "/img/a.jpg", RawQuery := "" }

/-- An image fetched with a query string. -/
def queriedImage : URL :=
  { Scheme := "http", Host := "host", Path := "/img/a.jpg", RawQuery := "v=2" }

/-- The command line `-delay 4200000000000 -threads 1`. -/
def longDelay : Params := { defaultParams with Delay := 4200000000000, Threads := 1 }

/-- The delay constants for `-delay 4200000000000 -threads 1`; the product
10 * Delay * 10^6 does not fit 64 bits and has wrapped around. -/
def longDelays : Delays :=
  { timeDelayStart := 4200000000000000000, timeDelayIncDec := 4200000000000000000,
    timeDelayMax := 5106511852580896768 }

/-! ## Basic facts about the machine integers -/

theorem wrap64_eq_self (x : Int) (h1 : -9223372036854775808 ≤ x)
    (h2 : x < 9223372036854775808) : wrap64 x = x := by
  unfold wrap64
  omega

theorem wrap64_range (x : Int) :
    -9223372036854775808 ≤ wrap64 x ∧ wrap64 x < 9223372036854775808 := by
  unfold wrap64
  omega

theorem wrapU64_eq_self (x : Nat) (h : x < 18446744073709551616) : wrapU64 x = x := by
  unfold wrapU64
  omega

/-! ## What VisitURL leaves alone -/

theorem VisitURL_rows (params : Params) (c : Collector) (e : Engine) (r : Request)
    (link : Link) : (VisitURL params c e r link).1.rows = e.rows := by
  unfold VisitURL
  split
  · rfl
  · dsimp only
    split <;> rfl

theorem VisitURL_RandomDelay (params : Params) (c : Collector) (e : Engine) (r : Request)
    (link : Link) : (VisitURL params c e r link).1.RandomDelay = e.RandomDelay := by
  unfold VisitURL
  split
  · rfl
  · dsimp only
    split <;> rfl

theorem VisitURL_URL (params : Params) (c : Collector) (e : Engine) (r : Request)
    (link : Link) : (VisitURL params c e r link).2.URL = r.URL := by
  unfold VisitURL
  split
  · rfl
  · dsimp only
    split <;> rfl

theorem foldl_VisitURL_rows (params : Params) (c : Collector) (links : List Link)
    (a : Engine × Request) :
    (links.foldl (fun (acc : Engine × Request) link => VisitURL params c acc.1 acc.2 link)
      a).1.rows = a.1.rows := by
  induction links generalizing a with
  | nil => rfl
  | cons l ls ih =>
    rw [List.foldl_cons, ih, VisitURL_rows]

/-! ## VisitURL in closed form -/

theorem Store.alloc_put_put (s : Store) (src : String) (n : Int) :
    ((s ++ [NewContext]).update s.length (fun x => { x with source := some src })).update
        s.length (fun x => { x with redirects := some n }) =
      s ++ [{ source := some src, redirects := some n }] := by
  simp [Store.update, Store.read, NewContext, List.getD]

theorem VisitURL_rejected (params : Params) (c : Collector) (e : Engine) (r : Request)
    (link : Link) (h : link.redirects > params.MaxRedirects ∨ e.total > params.MaxPages) :
    VisitURL params c e r link = (e, r) := by
  unfold VisitURL
  rw [if_pos h]

theorem VisitURL_dispatched (params : Params) (c : Collector) (e : Engine) (r : Request)
    (link : Link) (h : ¬(link.redirects > params.MaxRedirects ∨ e.total > params.MaxPages)) :
    VisitURL params c e r link =
      ({ e with
          total :=
            if c.Visit e.visits { r with Ctx := e.store.length } link.url then
              wrapU64 (e.total + 1)
            else e.total
          store := e.store ++ [{ source := some r.URL, redirects := some link.redirects }]
          visits := e.visits ++
            [{ url := link.url, Ctx := e.store.length, Depth := wrap64 (r.Depth + 1),
               redirects := link.redirects,
               accepted := c.Visit e.visits { r with Ctx := e.store.length } link.url }] },
        { r with Ctx := e.store.length }) := by
  unfold VisitURL
  rw [if_neg h]
  dsimp only
  rw [Store.alloc_put_put]
  split <;> rfl

/-! ## C1: rows written per outcome -/

/-- C1. The OnError handler, for any status and error, appends to the report no row
for a transport error (an error with status 0), otherwise for a redirect status
one row when the resolved Location is non-empty and none when it is empty,
otherwise no row for an overload status, and one row for every other status.
The OnScraped handler, for any context, appends exactly one row (the canonical
skip row or the ordinary row). -/
theorem rows_written_per_outcome (params : Params) (d : Delays) (c : Collector)
    (e : Engine) (r : Response) (err : Option String) :
    (OnError params d c e r err).1.rows.length =
        e.rows.length +
          (if err.isSome ∧ r.StatusCode = 0 then 0
           else if isRedirect r.StatusCode then
             (if c.AbsoluteURL r.Request.URL r.Location = "" then 0 else 1)
           else if isOverload r.StatusCode then 0
           else 1)
      ∧ (OnScraped params d c e r).1.rows.length = e.rows.length + 1
      ∧ (OnError params d c e r err).1.rows.length ≤ e.rows.length + 1 := by
  have hE : (OnError params d c e r err).1.rows.length =
        e.rows.length +
          (if err.isSome ∧ r.StatusCode = 0 then 0
           else if isRedirect r.StatusCode then
             (if c.AbsoluteURL r.Request.URL r.Location = "" then 0 else 1)
           else if isOverload r.StatusCode then 0
           else 1) := by
    unfold OnError
    split
    · simp
    · split
      · dsimp only
        split
        · simp
        · simp [VisitURL_rows]
      · split
        · dsimp only
          split <;> simp
        · simp
  refine ⟨hE, ?_, ?_⟩
  · unfold OnScraped
    by_cases h1 : r.StatusCode < 400 ∧ e.RandomDelay > d.timeDelayStart <;>
    by_cases h2 : Get (e.store.read r.Request.Ctx).canonical ≠ "" ∧
        r.Request.URL ≠ Get (e.store.read r.Request.Ctx).canonical <;>
    cases h3 : (e.store.read r.Ctx).links <;>
    simp [h1, h2, h3, foldl_VisitURL_rows]
  · rw [hE]
    split
    · omega
    · split
      · split <;> omega
      · split <;> omega

/-! ## C2: the row of a scraped page -/

theorem replaceSpaces_mem (cs : List Char) :
    ∀ (b : Bool) (c : Char), c ∈ replaceSpaces b cs → isRegexSpace c = true → c = Char.ofNat 32 := by
  induction cs with
  | nil => intro b c h; simp [replaceSpaces] at h
  | cons x xs ih =>
    intro b c h hc
    unfold replaceSpaces at h
    by_cases hx : isRegexSpace x = true
    · rw [if_pos hx] at h
      cases b with
      | true => exact ih true c (by simpa using h) hc
      | false =>
        simp only [Bool.false_eq_true, if_false, List.mem_cons] at h
        rcases h with h | h
        · exact h
        · exact ih true c h hc
    · rw [if_neg hx] at h
      simp only [List.mem_cons] at h
      rcases h with h | h
      · subst h; exact absurd hc hx
      · exact ih false c h hc

theorem replaceSpaces_chain (cs : List Char) :
    ∀ b : Bool,
      List.Chain' (fun x y => ¬(isRegexSpace x = true ∧ isRegexSpace y = true)) (replaceSpaces b cs)
        ∧ (b = true → ∀ h ∈ (replaceSpaces b cs).head?, isRegexSpace h = false) := by
  induction cs with
  | nil => intro b; simp [replaceSpaces]
  | cons x xs ih =>
    intro b
    unfold replaceSpaces
    by_cases hx : isRegexSpace x = true
    · rw [if_pos hx]
      cases b with
      | true =>
        simp only [if_true]
        exact ⟨(ih true).1, fun _ => (ih true).2 rfl⟩
      | false =>
        simp only [Bool.false_eq_true, if_false]
        refine ⟨?_, by simp⟩
        rw [List.chain'_cons']
        refine ⟨?_, (ih true).1⟩
        intro y hy
        have := (ih true).2 rfl y hy
        simp [this]
    · rw [if_neg hx]
      refine ⟨?_, ?_⟩
      · rw [List.chain'_cons']
        refine ⟨?_, (ih false).1⟩
        intro y _
        simp [hx]
      · intro _ h hh
        simp only [List.head?_cons, Option.mem_def, Option.some.injEq] at hh
        subst hh
        simpa using hx

theorem trimSpaceChars_within (cs : List Char) : trimSpaceChars cs <:+: cs := by
  unfold trimSpaceChars
  have h1 : ((cs.dropWhile isUnicodeSpace).reverse.dropWhile isUnicodeSpace).reverse <+:
      cs.dropWhile isUnicodeSpace := by
    rw [← List.reverse_suffix, List.reverse_reverse]
    exact List.dropWhile_suffix _
  exact h1.isInfix.trans (List.dropWhile_suffix _).isInfix

theorem trimSpaceChars_ends (cs : List Char) :
    (∀ h ∈ (trimSpaceChars cs).head?, isUnicodeSpace h = false)
      ∧ (∀ h ∈ (trimSpaceChars cs).getLast?, isUnicodeSpace h = false) := by
  unfold trimSpaceChars
  constructor
  · intro h hh
    have hpre : ((cs.dropWhile isUnicodeSpace).reverse.dropWhile isUnicodeSpace).reverse <+:
        cs.dropWhile isUnicodeSpace := by
      rw [← List.reverse_suffix, List.reverse_reverse]
      exact List.dropWhile_suffix _
    obtain ⟨u, hu⟩ := hpre
    have hnot := List.head?_dropWhile_not isUnicodeSpace cs
    rw [← hu] at hnot
    cases hX : ((cs.dropWhile isUnicodeSpace).reverse.dropWhile isUnicodeSpace).reverse with
    | nil => rw [hX] at hh; simp at hh
    | cons a t =>
      rw [hX] at hh hnot
      simp only [List.head?_cons, Option.mem_def, Option.some.injEq] at hh
      subst hh
      simpa using hnot
  · intro h hh
    rw [List.getLast?_reverse] at hh
    have hnot := List.head?_dropWhile_not isUnicodeSpace (cs.dropWhile isUnicodeSpace).reverse
    rw [Option.mem_def] at hh
    rw [hh] at hnot
    exact hnot

theorem replaceSpaces_filter (cs : List Char) :
    ∀ b : Bool,
      (replaceSpaces b cs).filter (fun c => !isRegexSpace c) =
        cs.filter (fun c => !isRegexSpace c) := by
  have h32 : isRegexSpace (Char.ofNat 32) = true := by decide
  induction cs with
  | nil => intro b; simp [replaceSpaces]
  | cons x xs ih =>
    intro b
    unfold replaceSpaces
    by_cases hx : isRegexSpace x = true
    · cases b <;> simp [hx, h32, ih]
    · simp [hx, ih]

theorem textWords_nil : textWords [] = [] := by
  simp [textWords]

theorem textWords_cons_space (c : Char) (cs : List Char) (h : isRegexSpace c = true) :
    textWords (c :: cs) = textWords cs := by
  simp [textWords, h]

theorem textWords_cons_other (c : Char) (cs : List Char) (h : isRegexSpace c = false) :
    ∃ w ws, cs.splitOnP isRegexSpace = w :: ws
      ∧ textWords (c :: cs) = (c :: w) :: ws.filter (fun w => !w.isEmpty) := by
  cases hs : cs.splitOnP isRegexSpace with
  | nil => exact absurd hs (List.splitOnP_ne_nil _ _)
  | cons w ws =>
    refine ⟨w, ws, rfl, ?_⟩
    simp [textWords, h, hs]

theorem intercalate_cons_cons (sep : List Char) (c : Char) (w : List Char)
    (ws : List (List Char)) :
    sep.intercalate ((c :: w) :: ws) = c :: sep.intercalate (w :: ws) := by
  cases ws <;> simp [List.intercalate, List.intersperse]

theorem intercalate_single_cons (sep : List Char) (w v : List Char) (ws : List (List Char)) :
    sep.intercalate (w :: v :: ws) = w ++ sep ++ sep.intercalate (v :: ws) := by
  simp [List.intercalate, List.intersperse]


theorem replaceSpaces_true_words (cs : List Char) :
    ∃ tr : List Char, (tr = [] ∨ tr = [Char.ofNat 32]) ∧ (textWords cs = [] → tr = [])
      ∧ replaceSpaces true cs = [Char.ofNat 32].intercalate (textWords cs) ++ tr := by
  induction cs with
  | nil =>
    exact ⟨[], Or.inl rfl, fun _ => rfl,
      by simp [replaceSpaces, textWords_nil, List.intercalate, List.intersperse]⟩
  | cons c cs ih =>
    obtain ⟨tr, htr, hnil, hrep⟩ := ih
    by_cases hc : isRegexSpace c = true
    · refine ⟨tr, htr, ?_, ?_⟩
      · rw [textWords_cons_space c cs hc]
        exact hnil
      · rw [textWords_cons_space c cs hc, ← hrep]
        simp [replaceSpaces, hc]
    · have hc2 : isRegexSpace c = false := by simpa using hc
      have hstep : replaceSpaces true (c :: cs) = c :: replaceSpaces false cs := by
        simp [replaceSpaces, hc2]
      obtain ⟨w, ws, hsplit, hwords⟩ := textWords_cons_other c cs hc2
      cases cs with
      | nil =>
        refine ⟨[], Or.inl rfl, fun _ => rfl, ?_⟩
        simp only [List.splitOnP_nil, List.cons.injEq] at hsplit
        rw [hstep, hwords, ← hsplit.1, ← hsplit.2]
        simp [replaceSpaces, List.intercalate, List.intersperse]
      | cons d ds =>
        by_cases hd : isRegexSpace d = true
        · have hfalse : replaceSpaces false (d :: ds) =
              Char.ofNat 32 :: replaceSpaces true (d :: ds) := by
            simp [replaceSpaces, hd]
          have hw : w = [] ∧ ws.filter (fun w => !w.isEmpty) = textWords (d :: ds) := by
            simp only [List.splitOnP_cons, hd, if_true, List.cons.injEq] at hsplit
            refine ⟨hsplit.1.symm, ?_⟩
            rw [textWords_cons_space d ds hd, textWords, hsplit.2]
          rw [hw.1, hw.2] at hwords
          rw [hstep, hfalse, hrep, hwords]
          cases hws : textWords (d :: ds) with
          | nil =>
            refine ⟨[Char.ofNat 32], Or.inr rfl, by simp, ?_⟩
            rw [hnil hws]
            simp [List.intercalate, List.intersperse]
          | cons v vs =>
            refine ⟨tr, htr, by simp, ?_⟩
            rw [intercalate_single_cons]
            simp
        · have hd2 : isRegexSpace d = false := by simpa using hd
          have hfalse : replaceSpaces false (d :: ds) = replaceSpaces true (d :: ds) := by
            simp [replaceSpaces, hd2]
          obtain ⟨w2, ws2, hsplit2, hwords2⟩ := textWords_cons_other d ds hd2
          have hw : w = d :: w2 ∧ ws = ws2 := by
            simp only [List.splitOnP_cons, hd2, Bool.false_eq_true, if_false, hsplit2,
              List.modifyHead_cons, List.cons.injEq] at hsplit
            exact ⟨hsplit.1.symm, hsplit.2.symm⟩
          rw [hw.1, hw.2] at hwords
          refine ⟨tr, htr, by rw [hwords]; simp, ?_⟩
          rw [hstep, hfalse, hrep, hwords, hwords2]
          simp only [intercalate_cons_cons, List.cons_append]

theorem replaceSpaces_false_true (cs : List Char) :
    replaceSpaces false cs = replaceSpaces true cs ∨
      replaceSpaces false cs = Char.ofNat 32 :: replaceSpaces true cs := by
  cases cs with
  | nil => left; rfl
  | cons c cs =>
    by_cases hc : isRegexSpace c = true
    · right; simp [replaceSpaces, hc]
    · left; simp [replaceSpaces, hc]

theorem dropWhile_append_singleton (p : Char → Bool) (l : List Char) (a : Char)
    (ha : p a = true) :
    (l ++ [a]).dropWhile p = [] ∧ l.dropWhile p = [] ∨
      (l ++ [a]).dropWhile p = l.dropWhile p ++ [a] := by
  induction l with
  | nil => left; simp [ha]
  | cons x xs ih =>
    by_cases hx : p x = true
    · simpa [List.dropWhile_cons, hx] using ih
    · right; simp [List.dropWhile_cons, hx]

theorem trim_append_space (l : List Char) :
    ((l ++ [Char.ofNat 32]).dropWhile isUnicodeSpace).rdropWhile isUnicodeSpace =
      (l.dropWhile isUnicodeSpace).rdropWhile isUnicodeSpace := by
  have h32 : isUnicodeSpace (Char.ofNat 32) = true := by decide
  rcases dropWhile_append_singleton isUnicodeSpace l (Char.ofNat 32) h32 with h | h
  · rw [h.1, h.2]
  · rw [h, List.rdropWhile_concat_pos _ _ _ h32]

theorem TrimSpace_eq_collapseAndTrim (s : String) :
    (TrimSpace s).data = collapseAndTrim s.data := by
  have h32 : isUnicodeSpace (Char.ofNat 32) = true := by decide
  obtain ⟨tr, htr, _, hrep⟩ := replaceSpaces_true_words s.data
  have hR : ((replaceSpaces true s.data).dropWhile isUnicodeSpace).rdropWhile isUnicodeSpace =
      collapseAndTrim s.data := by
    rw [hrep]
    rcases htr with h | h
    · rw [h, List.append_nil]; rfl
    · rw [h, trim_append_space]; rfl
  show trimSpaceChars (replaceSpaces false s.data) = _
  rw [← hR]
  unfold trimSpaceChars
  rcases replaceSpaces_false_true s.data with h | h
  · rw [h]; rfl
  · rw [h, List.dropWhile_cons, if_pos h32]; rfl

/-- What TrimSpace does to a string: the result neither starts nor ends with a
white-space character, every `\s` character left in it is a single space not
next to another one, and it is a contiguous part of the input's run-collapsed
form, which keeps the characters outside `\s` in order. -/
theorem TrimSpace_collapses_and_trims (s : String) :
    (∀ h ∈ (TrimSpace s).data.head?, isUnicodeSpace h = false)
      ∧ (∀ h ∈ (TrimSpace s).data.getLast?, isUnicodeSpace h = false)
      ∧ (∀ c ∈ (TrimSpace s).data, isRegexSpace c = true → c = Char.ofNat 32)
      ∧ List.Chain' (fun x y => ¬(isRegexSpace x = true ∧ isRegexSpace y = true))
          (TrimSpace s).data
      ∧ (TrimSpace s).data <:+: replaceSpaces false s.data
      ∧ (replaceSpaces false s.data).filter (fun c => !isRegexSpace c) =
          s.data.filter (fun c => !isRegexSpace c) := by
  have hinf := trimSpaceChars_within (replaceSpaces false s.data)
  refine ⟨(trimSpaceChars_ends _).1, (trimSpaceChars_ends _).2, ?_, ?_, hinf,
    replaceSpaces_filter _ _⟩
  · intro c hc
    exact replaceSpaces_mem s.data false c (hinf.subset hc)
  · obtain ⟨pre, post, hpp⟩ := hinf
    have hch := (replaceSpaces_chain s.data false).1
    rw [← hpp] at hch
    exact hch.left_of_append.right_of_append

theorem TrimSpace_sample :
    TrimSpace "  Hello \t\n  wide   world \n" = "Hello wide world" := by
  decide

/-- C2. For every scraped response the OnScraped handler appends exactly the row
(310, url, canonical, source, "", "", "") when the canonical stored in the
request's context is non-empty and differs from the URL, and otherwise the row
(status, url, "", source, T title, T h1, T description) with T the closure
TrimSpace; a page whose canonical equals its URL produces the same rows as the
same page with canonical "" (or with no canonical at all). T collapses every
run of whitespace to one space and trims: for every string, T s consists of the
words of s in their order, separated by single spaces, with no white space at
either end (so `  Hello \t\n  wide   world \n` becomes `Hello wide world`); in
particular T s never starts or ends with a white-space character and contains
no `\s` character other than single spaces that are not next to each other. -/
theorem scraped_row (params : Params) (d : Delays) (c : Collector) (e : Engine)
    (r : Response) :
    (OnScraped params d c e r).1.rows =
        e.rows ++
          [if Get (e.store.read r.Request.Ctx).canonical ≠ "" ∧
                r.Request.URL ≠ Get (e.store.read r.Request.Ctx).canonical then
              ["310", r.Request.URL, Get (e.store.read r.Request.Ctx).canonical,
                Get (e.store.read r.Ctx).source, "", "", ""]
            else
              [toString r.StatusCode, r.Request.URL, "", Get (e.store.read r.Ctx).source,
                TrimSpace (Get (e.store.read r.Ctx).title),
                TrimSpace (Get (e.store.read r.Ctx).h1),
                TrimSpace (Get (e.store.read r.Ctx).description)]]
      ∧ (∀ (x : Context) (p : Nat),
          (OnScraped params d c
              { e with store := e.store.set p { x with canonical := some r.Request.URL } }
              { r with Ctx := p, Request := { r.Request with Ctx := p } }).1.rows =
            (OnScraped params d c
              { e with store := e.store.set p { x with canonical := some "" } }
              { r with Ctx := p, Request := { r.Request with Ctx := p } }).1.rows
          ∧ (OnScraped params d c
              { e with store := e.store.set p { x with canonical := some r.Request.URL } }
              { r with Ctx := p, Request := { r.Request with Ctx := p } }).1.rows =
            (OnScraped params d c
              { e with store := e.store.set p { x with canonical := none } }
              { r with Ctx := p, Request := { r.Request with Ctx := p } }).1.rows)
      ∧ (∀ s : String,
          (∀ h ∈ (TrimSpace s).data.head?, isUnicodeSpace h = false)
            ∧ (∀ h ∈ (TrimSpace s).data.getLast?, isUnicodeSpace h = false)
            ∧ (∀ ch ∈ (TrimSpace s).data, isRegexSpace ch = true → ch = Char.ofNat 32)
            ∧ List.Chain' (fun a b => ¬(isRegexSpace a = true ∧ isRegexSpace b = true))
                (TrimSpace s).data)
      ∧ (∀ s : String, TrimSpace s = String.mk (collapseAndTrim s.data))
      ∧ TrimSpace "  Hello \t\n  wide   world \n" = "Hello wide world"
      ∧ TrimSpace "Home" = "Home" := by
  have key : ∀ (e : Engine) (r : Response), (OnScraped params d c e r).1.rows =
        e.rows ++
          [if Get (e.store.read r.Request.Ctx).canonical ≠ "" ∧
                r.Request.URL ≠ Get (e.store.read r.Request.Ctx).canonical then
              ["310", r.Request.URL, Get (e.store.read r.Request.Ctx).canonical,
                Get (e.store.read r.Ctx).source, "", "", ""]
            else
              [toString r.StatusCode, r.Request.URL, "", Get (e.store.read r.Ctx).source,
                TrimSpace (Get (e.store.read r.Ctx).title),
                TrimSpace (Get (e.store.read r.Ctx).h1),
                TrimSpace (Get (e.store.read r.Ctx).description)]] := by
    intro e r
    unfold OnScraped
    by_cases h1 : r.StatusCode < 400 ∧ e.RandomDelay > d.timeDelayStart <;>
    by_cases h2 : Get (e.store.read r.Request.Ctx).canonical ≠ "" ∧
        r.Request.URL ≠ Get (e.store.read r.Request.Ctx).canonical <;>
    cases h3 : (e.store.read r.Ctx).links <;>
    simp [h1, h2, h3, foldl_VisitURL_rows]
  refine ⟨key e r, ?_, fun s =>
    ⟨(TrimSpace_collapses_and_trims s).1, (TrimSpace_collapses_and_trims s).2.1,
      (TrimSpace_collapses_and_trims s).2.2.1, (TrimSpace_collapses_and_trims s).2.2.2.1⟩,
    fun s => congrArg String.mk (TrimSpace_eq_collapseAndTrim s), by decide, by decide⟩
  intro x p
  rw [key, key, key]
  by_cases hp : p < e.store.length
  · simp [Store.read, List.getD, hp, Get]
  · have hs : ∀ y : Context, e.store.set p y = e.store := by
      intro y
      apply List.set_eq_of_length_le
      omega
    simp [hs]

/-! ## C3: the canonical target of a skipped page -/

theorem Store.read_update_same (s : Store) (p : Nat) (f : Context → Context)
    (hp : p < s.length) : (s.update p f).read p = f (s.read p) := by
  simp [Store.update, Store.read, List.getD, hp]

/-- C3. For every scraped page whose canonical is non-empty and differs from its
URL, the OnScraped handler appends the canonical link to the links of the
request's context and returns: it calls VisitURL for no link, so no fetch is
dispatched (the recorded visits and the page counter are unchanged) and the
canonical target is not crawled on behalf of the skipped page. -/
theorem canonical_skip_dispatches_nothing (params : Params) (d : Delays) (c : Collector)
    (e : Engine) (r : Response)
    (h1 : Get (e.store.read r.Request.Ctx).canonical ≠ "")
    (h2 : r.Request.URL ≠ Get (e.store.read r.Request.Ctx).canonical)
    (hp : r.Request.Ctx < e.store.length) :
    (OnScraped params d c e r).1.visits = e.visits
      ∧ (OnScraped params d c e r).1.total = e.total
      ∧ ((OnScraped params d c e r).1.store.read r.Request.Ctx).links =
          some ((match (e.store.read r.Request.Ctx).links with
                  | none => []
                  | some ls => ls) ++
                [{ url := Get (e.store.read r.Request.Ctx).canonical, redirects := 0 }]) := by
  unfold OnScraped
  by_cases h0 : r.StatusCode < 400 ∧ e.RandomDelay > d.timeDelayStart <;>
  simp [h0, h1, h2, AddURL, Store.read_update_same, hp]

theorem canonical_skip_dispatches_nothing_witness :
    (OnScraped defaultParams defaultDelays acceptAll dupEngine dupResponse).1.visits =
        dupEngine.visits
      ∧ (OnScraped defaultParams defaultDelays acceptAll dupEngine dupResponse).1.total =
        dupEngine.total
      ∧ ((OnScraped defaultParams defaultDelays acceptAll dupEngine dupResponse).1.store.read
            dupResponse.Request.Ctx).links =
          some ((match (dupEngine.store.read dupResponse.Request.Ctx).links with
                  | none => []
                  | some ls => ls) ++
                [{ url := Get (dupEngine.store.read dupResponse.Request.Ctx).canonical,
                   redirects := 0 }]) :=
  canonical_skip_dispatches_nothing defaultParams defaultDelays acceptAll dupEngine dupResponse
    (by decide) (by decide) (by decide)

/-- The canonical scenario evaluated: the handler writes the 310 row for
`http://host/dup`, records the canonical in the context, and dispatches nothing. -/
theorem canonical_skip_evaluated :
    (OnScraped defaultParams defaultDelays acceptAll dupEngine dupResponse).1.rows =
        dupEngine.rows ++
          [["310", "http://host/dup", "http://host/orig", "http://host/", "", "", ""]]
      ∧ ((OnScraped defaultParams defaultDelays acceptAll dupEngine dupResponse).1.store.read
            1).links = some [{ url := "http://host/orig", redirects := 0 }]
      ∧ (OnScraped defaultParams defaultDelays acceptAll dupEngine dupResponse).1.visits =
        [{ url := "/dup", Ctx := 1, Depth := 2, redirects := 0, accepted := true }] := by
  decide

/-! ## The OnError handler on a redirect response -/

theorem isRedirect_ne_zero (s : Int) (h : isRedirect s = true) : s ≠ 0 := by
  intro h0
  subst h0
  simp [isRedirect] at h

theorem Store.read_append_left (s t : Store) (p : Nat) (hp : p < s.length) :
    Store.read (s ++ t) p = Store.read s p := by
  simp [Store.read, List.getD, List.getElem?_append_left hp]

theorem Store.read_append_new (s : Store) (x : Context) :
    Store.read (s ++ [x]) s.length = x := by
  simp [Store.read, List.getD]

theorem OnError_redirect_rejected (params : Params) (d : Delays) (c : Collector)
    (e : Engine) (r : Response) (err : Option String)
    (hs : isRedirect r.StatusCode = true)
    (hl : c.AbsoluteURL r.Request.URL r.Location ≠ "")
    (hg : wrap64 (ctxRedirects (e.store.read r.Request.Ctx) + 1) > params.MaxRedirects ∨
            e.total > params.MaxPages) :
    OnError params d c e r err =
      ({ e with
          rows := e.rows ++
            [[toString r.StatusCode, r.Request.URL, c.AbsoluteURL r.Request.URL r.Location,
              Get (e.store.read r.Ctx).source, "", "", ""]] },
        r.Request) := by
  have h0 : ¬(err.isSome ∧ r.StatusCode = 0) := fun h => isRedirect_ne_zero _ hs h.2
  unfold OnError
  rw [if_neg h0, if_pos hs]
  dsimp only
  rw [if_neg hl, VisitURL_rejected params c e r.Request _ hg]

theorem OnError_redirect_dispatched (params : Params) (d : Delays) (c : Collector)
    (e : Engine) (r : Response) (err : Option String)
    (hs : isRedirect r.StatusCode = true)
    (hl : c.AbsoluteURL r.Request.URL r.Location ≠ "")
    (hg : ¬(wrap64 (ctxRedirects (e.store.read r.Request.Ctx) + 1) > params.MaxRedirects ∨
            e.total > params.MaxPages)) :
    OnError params d c e r err =
      ({ total :=
            (if c.Visit e.visits { r.Request with Ctx := e.store.length }
                (c.AbsoluteURL r.Request.URL r.Location) then
              wrapU64 (e.total + 1)
            else e.total),
          RandomDelay := e.RandomDelay,
          store := e.store ++
            [{ source := some r.Request.URL,
               redirects := some (wrap64 (ctxRedirects (e.store.read r.Request.Ctx) + 1)) }],
          rows := e.rows ++
            [[toString r.StatusCode, r.Request.URL, c.AbsoluteURL r.Request.URL r.Location,
              Get (Store.read
                (e.store ++
                  [{ source := some r.Request.URL,
                     redirects :=
                       some (wrap64 (ctxRedirects (e.store.read r.Request.Ctx) + 1)) }])
                r.Ctx).source, "", "", ""]],
          visits := e.visits ++
            [{ url := c.AbsoluteURL r.Request.URL r.Location
               Ctx := e.store.length
               Depth := wrap64 (r.Request.Depth + 1)
               redirects := wrap64 (ctxRedirects (e.store.read r.Request.Ctx) + 1)
               accepted :=
                 c.Visit e.visits { r.Request with Ctx := e.store.length }
                   (c.AbsoluteURL r.Request.URL r.Location) }],
          retries := e.retries },
        { r.Request with Ctx := e.store.length }) := by
  have h0 : ¬(err.isSome ∧ r.StatusCode = 0) := fun h => isRedirect_ne_zero _ hs h.2
  unfold OnError
  rw [if_neg h0, if_pos hs]
  dsimp only
  rw [if_neg hl, VisitURL_dispatched params c e r.Request _ hg]

theorem OnError_no_dispatch (params : Params) (d : Delays) (c : Collector)
    (e : Engine) (r : Response) (err : Option String)
    (h : ¬(isRedirect r.StatusCode = true ∧ c.AbsoluteURL r.Request.URL r.Location ≠ "" ∧
            ¬(wrap64 (ctxRedirects (e.store.read r.Request.Ctx) + 1) > params.MaxRedirects ∨
              e.total > params.MaxPages))) :
    (OnError params d c e r err).1.visits = e.visits
      ∧ (OnError params d c e r err).1.rows.length ≤ e.rows.length + 1 := by
  by_cases hs : isRedirect r.StatusCode = true
  · by_cases hl : c.AbsoluteURL r.Request.URL r.Location = ""
    · have h0 : ¬(err.isSome ∧ r.StatusCode = 0) := fun h => isRedirect_ne_zero _ hs h.2
      unfold OnError
      rw [if_neg h0, if_pos hs]
      dsimp only
      rw [if_pos hl]
      simp
    · have hg : wrap64 (ctxRedirects (e.store.read r.Request.Ctx) + 1) > params.MaxRedirects ∨
            e.total > params.MaxPages := by
        by_contra hg
        exact h ⟨hs, hl, hg⟩
      rw [OnError_redirect_rejected params d c e r err hs hl hg]
      simp
  · unfold OnError
    by_cases h0 : err.isSome ∧ r.StatusCode = 0 <;>
    by_cases ho : isOverload r.StatusCode = true <;>
    by_cases hd : e.RandomDelay < d.timeDelayMax <;>
    simp [h0, hs, ho, hd]

theorem redirectChain_cons_no_dispatch (params : Params) (d : Delays) (c : Collector)
    (e : Engine) (r : Request) (hop : Int × String) (rest : List (Int × String))
    (h : (OnError params d c e
        { StatusCode := hop.1, Location := hop.2, Ctx := r.Ctx, Request := r }
        (some "redirect")).1.visits = e.visits) :
    redirectChain params d c e r (hop :: rest) =
      (OnError params d c e
        { StatusCode := hop.1, Location := hop.2, Ctx := r.Ctx, Request := r }
        (some "redirect")).1 := by
  simp only [redirectChain]
  rw [h]
  simp

theorem redirectChain_cons_dispatch (params : Params) (d : Delays) (c : Collector)
    (e : Engine) (r : Request) (hop : Int × String) (rest : List (Int × String))
    (v : Dispatch)
    (h : (OnError params d c e
        { StatusCode := hop.1, Location := hop.2, Ctx := r.Ctx, Request := r }
        (some "redirect")).1.visits = e.visits ++ [v]) :
    redirectChain params d c e r (hop :: rest) =
      redirectChain params d c
        (OnError params d c e
          { StatusCode := hop.1, Location := hop.2, Ctx := r.Ctx, Request := r }
          (some "redirect")).1
        { ID := e.visits.length + 1 + 1, URL := c.AbsoluteURL r.URL v.url, Depth := v.Depth,
          Ctx := v.Ctx }
        rest := by
  simp only [redirectChain]
  rw [h]
  simp

theorem OnError_no_dispatch_rows (params : Params) (d : Delays) (c : Collector)
    (e : Engine) (r : Response) (err : Option String)
    (h : ¬(isRedirect r.StatusCode = true ∧ c.AbsoluteURL r.Request.URL r.Location ≠ "" ∧
            ¬(wrap64 (ctxRedirects (e.store.read r.Request.Ctx) + 1) > params.MaxRedirects ∨
              e.total > params.MaxPages))) :
    ∃ new : List (List String),
      (OnError params d c e r err).1.rows = e.rows ++ new
        ∧ new.length ≤ 1
        ∧ ∀ row ∈ new,
            rowURL row = r.Request.URL ∧ rowSource row = Get (e.store.read r.Ctx).source := by
  by_cases hs : isRedirect r.StatusCode = true
  · by_cases hl : c.AbsoluteURL r.Request.URL r.Location = ""
    · have h0 : ¬(err.isSome ∧ r.StatusCode = 0) := fun h => isRedirect_ne_zero _ hs h.2
      refine ⟨[], ?_, by simp, by simp⟩
      unfold OnError
      rw [if_neg h0, if_pos hs]
      dsimp only
      rw [if_pos hl]
      simp
    · have hg : wrap64 (ctxRedirects (e.store.read r.Request.Ctx) + 1) > params.MaxRedirects ∨
            e.total > params.MaxPages := by
        by_contra hg
        exact h ⟨hs, hl, hg⟩
      rw [OnError_redirect_rejected params d c e r err hs hl hg]
      exact ⟨_, rfl, by simp, by simp [rowURL, rowSource]⟩
  · unfold OnError
    by_cases h0 : err.isSome ∧ r.StatusCode = 0
    · exact ⟨[], by simp [h0], by simp, by simp⟩
    · by_cases ho : isOverload r.StatusCode = true
      · refine ⟨[], ?_, by simp, by simp⟩
        by_cases hd : e.RandomDelay < d.timeDelayMax <;> simp [h0, hs, ho, hd]
      · refine ⟨[[toString r.StatusCode, r.Request.URL, "", Get (e.store.read r.Ctx).source,
            "", "", ""]], ?_, by simp, by simp [rowURL, rowSource]⟩
        simp [h0, hs, ho]

/-! ## C4: the source handed to the next hop of a redirect -/

theorem redirectChain_rows_linked (params : Params) (d : Delays) (c : Collector) :
    ∀ (hops : List (Int × String)) (e : Engine) (r : Request),
      r.Ctx < e.store.length →
      ∃ new : List (List String),
        (redirectChain params d c e r hops).rows = e.rows ++ new
          ∧ List.Chain' (fun a b => rowSource b = rowURL a) new
          ∧ ∀ row ∈ new.head?,
              rowURL row = r.URL ∧ rowSource row = Get (e.store.read r.Ctx).source := by
  intro hops
  induction hops with
  | nil =>
    intro e r _
    exact ⟨[], by simp [redirectChain], List.chain'_nil, by simp⟩
  | cons hop rest ih =>
    intro e r hp
    by_cases hdisp : isRedirect hop.1 = true ∧ c.AbsoluteURL r.URL hop.2 ≠ "" ∧
        ¬(wrap64 (ctxRedirects (e.store.read r.Ctx) + 1) > params.MaxRedirects ∨
          e.total > params.MaxPages)
    · obtain ⟨hs, hl, hg⟩ := hdisp
      have hout := OnError_redirect_dispatched params d c e
        { StatusCode := hop.1, Location := hop.2, Ctx := r.Ctx, Request := r }
        (some "redirect") hs hl hg
      rw [redirectChain_cons_dispatch params d c e r hop rest _ (by rw [hout])]
      rw [hout]
      dsimp only
      rw [Store.read_append_left _ _ _ hp]
      obtain ⟨new, hrows, hchain, hhead⟩ := ih
        { total :=
            (if c.Visit e.visits { r with Ctx := e.store.length } (c.AbsoluteURL r.URL hop.2) then
              wrapU64 (e.total + 1)
            else e.total),
          RandomDelay := e.RandomDelay,
          store := e.store ++
            [{ source := some r.URL,
               redirects := some (wrap64 (ctxRedirects (e.store.read r.Ctx) + 1)) }],
          rows := e.rows ++
            [[toString hop.1, r.URL, c.AbsoluteURL r.URL hop.2,
              Get (e.store.read r.Ctx).source, "", "", ""]],
          visits := e.visits ++
            [{ url := c.AbsoluteURL r.URL hop.2
               Ctx := e.store.length
               Depth := wrap64 (r.Depth + 1)
               redirects := wrap64 (ctxRedirects (e.store.read r.Ctx) + 1)
               accepted :=
                 c.Visit e.visits { r with Ctx := e.store.length } (c.AbsoluteURL r.URL hop.2) }],
          retries := e.retries }
        { ID := e.visits.length + 1 + 1
          URL := c.AbsoluteURL r.URL (c.AbsoluteURL r.URL hop.2)
          Depth := wrap64 (r.Depth + 1)
          Ctx := e.store.length }
        (by simp)
      dsimp only at hrows hhead
      rw [Store.read_append_new] at hhead
      refine ⟨[toString hop.1, r.URL, c.AbsoluteURL r.URL hop.2,
          Get (e.store.read r.Ctx).source, "", "", ""] :: new, ?_, ?_, ?_⟩
      · rw [hrows]
        simp
      · rw [List.chain'_cons']
        refine ⟨?_, hchain⟩
        intro y hy
        rw [(hhead y hy).2]
        simp [rowURL, Get]
      · intro row hrow
        simp only [List.head?_cons, Option.mem_def, Option.some.injEq] at hrow
        subst hrow
        simp [rowURL, rowSource]
    · obtain ⟨new, hrows, hlen, hall⟩ := OnError_no_dispatch_rows params d c e
        { StatusCode := hop.1, Location := hop.2, Ctx := r.Ctx, Request := r }
        (some "redirect") hdisp
      have hno := OnError_no_dispatch params d c e
        { StatusCode := hop.1, Location := hop.2, Ctx := r.Ctx, Request := r }
        (some "redirect") hdisp
      rw [redirectChain_cons_no_dispatch params d c e r hop rest hno.1]
      refine ⟨new, hrows, ?_, ?_⟩
      · match new, hlen with
        | [], _ => exact List.chain'_nil
        | [x], _ => exact List.chain'_singleton x
      · intro row hrow
        exact hall row (List.mem_of_mem_head? hrow)

/-- C4 (as stated, at the seed). The seed request for `http://host/`, whose own
source is empty, receives a 301 to `http://host/b`: the context built for the
next hop has source `http://host/`, the URL of the redirecting request, and not
the empty source of that request. -/
theorem next_hop_source_differs_from_referrer :
    Get ((Engine.initial defaultDelays).store.read seedRedirect.Ctx).source = ""
      ∧ Get ((OnError defaultParams defaultDelays acceptAll (Engine.initial defaultDelays)
            seedRedirect (some "Moved Permanently")).1.store.read
          (OnError defaultParams defaultDelays acceptAll (Engine.initial defaultDelays)
            seedRedirect (some "Moved Permanently")).2.Ctx).source = "http://host/"
      ∧ ¬ (Get ((OnError defaultParams defaultDelays acceptAll (Engine.initial defaultDelays)
            seedRedirect (some "Moved Permanently")).1.store.read
          (OnError defaultParams defaultDelays acceptAll (Engine.initial defaultDelays)
            seedRedirect (some "Moved Permanently")).2.Ctx).source =
          Get ((Engine.initial defaultDelays).store.read seedRedirect.Ctx).source) := by
  decide

/-- C4 (amended). For every redirect response (301, 302, 307, 308) with a non-empty
resolved Location whose next hop passes the limits of VisitURL, the request is
given a new context whose only entries are source = the URL of the redirecting
request and redirects = its redirect count plus one, the fetch of the Location
is attempted with that context, and the row written for the redirecting
response carries the source S of the redirecting request. Hence along every
chain of responses the rows written are linked: the first row carries the URL
and the source of the first request, and every later row has as its source the
URL of the row before it. -/
theorem redirect_next_hop_context (params : Params) (d : Delays) (c : Collector)
    (e : Engine) (r : Response) (err : Option String)
    (hs : isRedirect r.StatusCode = true)
    (hl : c.AbsoluteURL r.Request.URL r.Location ≠ "")
    (hg : ¬(wrap64 (ctxRedirects (e.store.read r.Request.Ctx) + 1) > params.MaxRedirects ∨
            e.total > params.MaxPages))
    (hp : r.Ctx < e.store.length) :
    (OnError params d c e r err).2.Ctx = e.store.length
      ∧ (OnError params d c e r err).1.store.read (OnError params d c e r err).2.Ctx =
          { source := some r.Request.URL,
            redirects := some (wrap64 (ctxRedirects (e.store.read r.Request.Ctx) + 1)) }
      ∧ (OnError params d c e r err).1.visits =
          e.visits ++
            [{ url := c.AbsoluteURL r.Request.URL r.Location
               Ctx := e.store.length
               Depth := wrap64 (r.Request.Depth + 1)
               redirects := wrap64 (ctxRedirects (e.store.read r.Request.Ctx) + 1)
               accepted :=
                 c.Visit e.visits { r.Request with Ctx := e.store.length }
                   (c.AbsoluteURL r.Request.URL r.Location) }]
      ∧ (OnError params d c e r err).1.rows =
          e.rows ++
            [[toString r.StatusCode, r.Request.URL, c.AbsoluteURL r.Request.URL r.Location,
              Get (e.store.read r.Ctx).source, "", "", ""]]
      ∧ (∀ (first : Request) (hops : List (Int × String)), first.Ctx < e.store.length →
          ∃ new : List (List String),
            (redirectChain params d c e first hops).rows = e.rows ++ new
              ∧ List.Chain' (fun a b => rowSource b = rowURL a) new
              ∧ ∀ row ∈ new.head?,
                  rowURL row = first.URL ∧
                    rowSource row = Get (e.store.read first.Ctx).source) := by
  rw [OnError_redirect_dispatched params d c e r err hs hl hg]
  dsimp only
  refine ⟨rfl, Store.read_append_new _ _, rfl, ?_,
    fun first hops hf => redirectChain_rows_linked params d c hops e first hf⟩
  rw [Store.read_append_left _ _ _ hp]

theorem redirect_next_hop_context_witness :
    (OnError defaultParams defaultDelays acceptAll (Engine.initial defaultDelays)
        seedRedirect (some "Moved Permanently")).1.store.read 1 =
      { source := some "http://host/", redirects := some 1 } :=
  (redirect_next_hop_context defaultParams defaultDelays acceptAll
    (Engine.initial defaultDelays) seedRedirect (some "Moved Permanently")
    (by decide) (by decide) (by decide) (by decide)).2.1

/-! ## C5: rows written along a redirect chain -/

theorem redirectChain_rows_le (params : Params) (d : Delays) (c : Collector)
    (hM : params.MaxRedirects + 1 < 9223372036854775808) :
    ∀ (hops : List (Int × String)) (e : Engine) (r : Request),
      0 ≤ ctxRedirects (e.store.read r.Ctx) →
      ctxRedirects (e.store.read r.Ctx) ≤ params.MaxRedirects →
      (redirectChain params d c e r hops).rows.length ≤
        e.rows.length + (params.MaxRedirects + 1 - ctxRedirects (e.store.read r.Ctx)).toNat := by
  intro hops
  induction hops with
  | nil =>
    intro e r _ _
    simp [redirectChain]
  | cons hop rest ih =>
    intro e r hk0 hk1
    by_cases hdisp : isRedirect hop.1 = true ∧ c.AbsoluteURL r.URL hop.2 ≠ "" ∧
        ¬(wrap64 (ctxRedirects (e.store.read r.Ctx) + 1) > params.MaxRedirects ∨
          e.total > params.MaxPages)
    · obtain ⟨hs, hl, hg⟩ := hdisp
      have hout := OnError_redirect_dispatched params d c e
        { StatusCode := hop.1, Location := hop.2, Ctx := r.Ctx, Request := r }
        (some "redirect") hs hl hg
      have hw : wrap64 (ctxRedirects (e.store.read r.Ctx) + 1) =
          ctxRedirects (e.store.read r.Ctx) + 1 := by
        apply wrap64_eq_self <;> omega
      rw [redirectChain_cons_dispatch params d c e r hop rest _ (by rw [hout])]
      rw [hout]
      dsimp only
      have hk : ctxRedirects
          (Store.read
            (e.store ++
              [{ source := some r.URL,
                 redirects := some (wrap64 (ctxRedirects (e.store.read r.Ctx) + 1)) }])
            e.store.length) = ctxRedirects (e.store.read r.Ctx) + 1 := by
        rw [Store.read_append_new]
        exact hw
      have hle : ctxRedirects (e.store.read r.Ctx) + 1 ≤ params.MaxRedirects := by
        rw [hw] at hg
        omega
      refine le_trans (ih _ _ ?_ ?_) ?_
      · dsimp only
        rw [hk]
        omega
      · dsimp only
        rw [hk]
        exact hle
      · dsimp only
        rw [hk]
        simp only [List.length_append, List.length_singleton]
        omega
    · have hno := OnError_no_dispatch params d c e
        { StatusCode := hop.1, Location := hop.2, Ctx := r.Ctx, Request := r }
        (some "redirect") hdisp
      rw [redirectChain_cons_no_dispatch params d c e r hop rest hno.1]
      have := hno.2
      omega

theorem redirectChain_rows_eq (params : Params) (d : Delays) (c : Collector)
    (hM : params.MaxRedirects + 1 < 9223372036854775808)
    (hP : params.MaxPages < 18446744073709551616) :
    ∀ (hops : List (Int × String)) (e : Engine) (r : Request),
      (∀ h ∈ hops, isRedirect h.1 = true ∧ ∀ base, c.AbsoluteURL base h.2 ≠ "") →
      e.total + hops.length ≤ params.MaxPages →
      0 ≤ ctxRedirects (e.store.read r.Ctx) →
      ctxRedirects (e.store.read r.Ctx) ≤ params.MaxRedirects →
      (redirectChain params d c e r hops).rows.length =
        e.rows.length +
          min hops.length (params.MaxRedirects + 1 - ctxRedirects (e.store.read r.Ctx)).toNat := by
  intro hops
  induction hops with
  | nil =>
    intro e r _ _ _ _
    simp [redirectChain]
  | cons hop rest ih =>
    intro e r hall htot hk0 hk1
    have hs : isRedirect hop.1 = true := (hall hop (List.mem_cons_self _ _)).1
    have hl : c.AbsoluteURL r.URL hop.2 ≠ "" := (hall hop (List.mem_cons_self _ _)).2 r.URL
    have hrest : ∀ h ∈ rest, isRedirect h.1 = true ∧ ∀ base, c.AbsoluteURL base h.2 ≠ "" :=
      fun h hh => hall h (List.mem_cons_of_mem _ hh)
    have hw : wrap64 (ctxRedirects (e.store.read r.Ctx) + 1) =
        ctxRedirects (e.store.read r.Ctx) + 1 := by
      apply wrap64_eq_self <;> omega
    simp only [List.length_cons] at htot
    by_cases hg : wrap64 (ctxRedirects (e.store.read r.Ctx) + 1) > params.MaxRedirects ∨
        e.total > params.MaxPages
    · have hout := OnError_redirect_rejected params d c e
        { StatusCode := hop.1, Location := hop.2, Ctx := r.Ctx, Request := r }
        (some "redirect") hs hl hg
      rw [redirectChain_cons_no_dispatch params d c e r hop rest (by rw [hout])]
      rw [hout]
      simp only [List.length_append, List.length_singleton, List.length_cons, List.length_nil]
      rw [hw] at hg
      omega
    · have hout := OnError_redirect_dispatched params d c e
        { StatusCode := hop.1, Location := hop.2, Ctx := r.Ctx, Request := r }
        (some "redirect") hs hl hg
      rw [redirectChain_cons_dispatch params d c e r hop rest _ (by rw [hout])]
      rw [hout]
      dsimp only
      have hk : ctxRedirects
          (Store.read
            (e.store ++
              [{ source := some r.URL,
                 redirects := some (wrap64 (ctxRedirects (e.store.read r.Ctx) + 1)) }])
            e.store.length) = ctxRedirects (e.store.read r.Ctx) + 1 := by
        rw [Store.read_append_new]
        exact hw
      have hle : ctxRedirects (e.store.read r.Ctx) + 1 ≤ params.MaxRedirects := by
        rw [hw] at hg
        omega
      have hu : wrapU64 (e.total + 1) = e.total + 1 := by
        apply wrapU64_eq_self
        omega
      rw [ih _ _ hrest ?_ ?_ ?_]
      · dsimp only
        rw [hk]
        simp only [List.length_append, List.length_singleton, List.length_cons, List.length_nil]
        omega
      · dsimp only
        rw [hu]
        split <;> omega
      · dsimp only
        rw [hk]
        omega
      · dsimp only
        rw [hk]
        exact hle

/-- C5 (as stated, at MaxRedirects = 3). A chain of six consecutive 301 responses
that begins at the seed request (redirect count 0) writes four redirect rows,
not at most three. -/
theorem six_redirects_write_four_rows :
    (redirectChain threeRedirects defaultDelays acceptAll (Engine.initial defaultDelays)
        seedRequest sixHops).rows.length =
      (Engine.initial defaultDelays).rows.length + 4
    ∧ ¬ ((redirectChain threeRedirects defaultDelays acceptAll (Engine.initial defaultDelays)
        seedRequest sixHops).rows.length ≤
      (Engine.initial defaultDelays).rows.length + 3) := by
  decide

/-- C5 (amended). For every MaxRedirects with 0 <= MaxRedirects below the largest
int, and every chain of consecutive responses that begins at a request with
redirect count 0, at most MaxRedirects + 1 rows are written for the chain; and
when every response is a redirect with a non-empty resolved Location and the
page budget is not reached, exactly min(n, MaxRedirects + 1) rows are written
for a chain of n responses: the first MaxRedirects + 1 redirect responses each
produce a row and the hop after them is not dispatched. -/
theorem redirect_chain_rows (params : Params) (d : Delays) (c : Collector) (e : Engine)
    (r : Request) (hops : List (Int × String))
    (hM0 : 0 ≤ params.MaxRedirects)
    (hM : params.MaxRedirects + 1 < 9223372036854775808)
    (hk : ctxRedirects (e.store.read r.Ctx) = 0) :
    (redirectChain params d c e r hops).rows.length ≤
        e.rows.length + (params.MaxRedirects + 1).toNat
      ∧ ((∀ h ∈ hops, isRedirect h.1 = true ∧ ∀ base, c.AbsoluteURL base h.2 ≠ "") →
          e.total + hops.length ≤ params.MaxPages →
          params.MaxPages < 18446744073709551616 →
          (redirectChain params d c e r hops).rows.length =
            e.rows.length + min hops.length (params.MaxRedirects + 1).toNat) := by
  constructor
  · have h := redirectChain_rows_le params d c hM hops e r (by omega) (by omega)
    rw [hk] at h
    simpa using h
  · intro hall htot hP
    have h := redirectChain_rows_eq params d c hM hP hops e r hall htot (by omega) (by omega)
    rw [hk] at h
    simpa using h

theorem redirect_chain_rows_witness :
    (redirectChain threeRedirects defaultDelays acceptAll (Engine.initial defaultDelays)
        seedRequest sixHops).rows.length =
      (Engine.initial defaultDelays).rows.length + 4 :=
  (redirect_chain_rows threeRedirects defaultDelays acceptAll (Engine.initial defaultDelays)
    seedRequest sixHops (by decide) (by decide) (by decide)).2
    (by
      intro h hh
      simp only [sixHops, List.mem_cons, List.mem_singleton, List.not_mem_nil, or_false] at hh
      rcases hh with rfl | rfl | rfl | rfl | rfl | rfl <;>
        exact ⟨by decide, fun _ => by simp [acceptAll]⟩)
    (by decide) (by decide)

/-! ## C6: the contract of VisitURL -/

/-- C6. For every referring request, link and counter value: VisitURL makes no
call of r.Visit and leaves total unchanged if and only if
link.redirects > MaxRedirects or total > MaxPages. Otherwise it makes exactly one
call, for link.url, after giving the request a newly allocated context holding
only source = the referring request's URL and redirects = link.redirects; total
then becomes total + 1 (in uint64 arithmetic, so exactly one more whenever
total + 1 < 2^64) if the call returned no error and stays as it was if it
returned one. Every call recorded by VisitURL carries redirects <= MaxRedirects. -/
theorem VisitURL_contract (params : Params) (c : Collector) (e : Engine) (r : Request)
    (link : Link) :
    (((VisitURL params c e r link).1.visits = e.visits ∧
          (VisitURL params c e r link).1.total = e.total) ↔
        (link.redirects > params.MaxRedirects ∨ e.total > params.MaxPages))
      ∧ (¬(link.redirects > params.MaxRedirects ∨ e.total > params.MaxPages) →
          (VisitURL params c e r link).1.visits =
              e.visits ++
                [{ url := link.url, Ctx := e.store.length, Depth := wrap64 (r.Depth + 1),
                   redirects := link.redirects,
                   accepted := c.Visit e.visits { r with Ctx := e.store.length } link.url }]
            ∧ (VisitURL params c e r link).2 = { r with Ctx := e.store.length }
            ∧ (VisitURL params c e r link).1.store =
                e.store ++ [{ source := some r.URL, redirects := some link.redirects }]
            ∧ (VisitURL params c e r link).1.total =
                (if c.Visit e.visits { r with Ctx := e.store.length } link.url then
                  (e.total + 1) % 18446744073709551616
                else e.total)
            ∧ (c.Visit e.visits { r with Ctx := e.store.length } link.url = true →
                e.total + 1 < 18446744073709551616 →
                (VisitURL params c e r link).1.total = e.total + 1))
      ∧ (∀ v ∈ (VisitURL params c e r link).1.visits.drop e.visits.length,
          v.redirects ≤ params.MaxRedirects) := by
  by_cases h : link.redirects > params.MaxRedirects ∨ e.total > params.MaxPages
  · rw [VisitURL_rejected params c e r link h]
    simp [h]
  · rw [VisitURL_dispatched params c e r link h]
    refine ⟨?_, ?_, ?_⟩
    · simp [h]
    · intro _
      refine ⟨rfl, rfl, rfl, rfl, ?_⟩
      intro hok hlt
      simp [hok, wrapU64, Nat.mod_eq_of_lt hlt]
    · intro v hv
      simp at hv
      subst hv
      simp only [not_or, not_lt] at h
      exact h.1

/-! ## C7: the page counter and MaxPages -/

/-- A dispatch made when the page counter has just reached MaxPages is not
refused by VisitURL: when the library accepts the fetch the counter becomes
MaxPages + 1. -/
theorem VisitURL_at_MaxPages (params : Params) (c : Collector) (e : Engine) (r : Request)
    (link : Link)
    (ht : e.total = params.MaxPages)
    (hr : link.redirects ≤ params.MaxRedirects)
    (hok : c.Visit e.visits { r with Ctx := e.store.length } link.url = true)
    (hlt : params.MaxPages + 1 < 18446744073709551616) :
    (VisitURL params c e r link).1.total = params.MaxPages + 1
      ∧ (VisitURL params c e r link).1.visits.length = e.visits.length + 1 := by
  have hg : ¬(link.redirects > params.MaxRedirects ∨ e.total > params.MaxPages) := by
    simp only [not_or, not_lt]
    exact ⟨hr, by omega⟩
  rw [VisitURL_dispatched params c e r link hg]
  simp [hok, wrapU64, ht, Nat.mod_eq_of_lt hlt]

/-- C7 (the code at `-pages 1`). In the initial state the page counter is 1, which
is MaxPages; VisitURL for the first link of the seed page is not refused, the
fetch of `http://host/a` is dispatched and accepted, and the counter becomes 2,
which exceeds MaxPages = 1. -/
theorem total_exceeds_MaxPages :
    (Engine.initial defaultDelays).total = 1
      ∧ onePage.MaxPages = 1
      ∧ (VisitURL onePage acceptAll (Engine.initial defaultDelays) seedRequest
          { url := "http://host/a" }).1.visits =
        [{ url := "http://host/a", Ctx := 1, Depth := 2, redirects := 0, accepted := true }]
      ∧ (VisitURL onePage acceptAll (Engine.initial defaultDelays) seedRequest
          { url := "http://host/a" }).1.total = 2
      ∧ ¬ ((VisitURL onePage acceptAll (Engine.initial defaultDelays) seedRequest
          { url := "http://host/a" }).1.total ≤ onePage.MaxPages) := by
  decide

/-! ## C10: the overload scenario with Delay = 100 ms and Threads = 2 -/

theorem defaultDelays_eq : delays defaultParams = some defaultDelays := by
  decide

/-- C10 (as stated). With Delay = 100 ms and Threads = 2 the random delay after
the first 503 is 200 ms, not the 300 ms of the claim. -/
theorem first_overload_is_not_300ms :
    delays slowParams = some slowDelays
      ∧ (Engine.initial slowDelays).RandomDelay = 100 * Millisecond
      ∧ (afterErrors slowParams slowDelays acceptAll (Engine.initial slowDelays)
          seedUnavailable (some "Service Unavailable") 1).RandomDelay = 200 * Millisecond
      ∧ ¬ ((afterErrors slowParams slowDelays acceptAll (Engine.initial slowDelays)
          seedUnavailable (some "Service Unavailable") 1).RandomDelay = 300 * Millisecond) := by
  decide

/-- C10 (amended). With Delay = 100 ms and Threads = 2 the delay constants are
100 ms, 50 ms and 1 s; starting from RandomDelay = 100 ms, three consecutive 503
responses leave RandomDelay at 200 ms after the first, 300 ms after the second
and 400 ms after the third, and a following scraped 200 response leaves it at
350 ms. -/
theorem overload_scenario_delays :
    delays slowParams = some slowDelays
      ∧ (Engine.initial slowDelays).RandomDelay = 100 * Millisecond
      ∧ (afterErrors slowParams slowDelays acceptAll (Engine.initial slowDelays)
          seedUnavailable (some "Service Unavailable") 1).RandomDelay = 200 * Millisecond
      ∧ (afterErrors slowParams slowDelays acceptAll (Engine.initial slowDelays)
          seedUnavailable (some "Service Unavailable") 2).RandomDelay = 300 * Millisecond
      ∧ (afterErrors slowParams slowDelays acceptAll (Engine.initial slowDelays)
          seedUnavailable (some "Service Unavailable") 3).RandomDelay = 400 * Millisecond
      ∧ (scrapedAll slowParams slowDelays acceptAll
          (afterErrors slowParams slowDelays acceptAll (Engine.initial slowDelays)
            seedUnavailable (some "Service Unavailable") 3)
          [seedOK]).RandomDelay = 350 * Millisecond := by
  decide

/-! ## The delay constants and the two delay updates in closed form -/

theorem delays_of_range (params : Params) (hD : 0 ≤ params.Delay)
    (hR : 10 * (params.Delay * 1000000) < 9223372036854775808)
    (hP : 1 ≤ params.Threads) :
    delays params =
      some
        { timeDelayStart := params.Delay * 1000000
          timeDelayIncDec := params.Delay * 1000000 / params.Threads
          timeDelayMax := 10 * (params.Delay * 1000000) } := by
  have hT : params.Threads ≠ 0 := by omega
  have h1 : wrap64 (params.Delay * 1000000) = params.Delay * 1000000 := by
    apply wrap64_eq_self <;> omega
  have h2 : wrap64 (10 * params.Delay) = 10 * params.Delay := by
    apply wrap64_eq_self <;> omega
  have h3 : wrap64 (10 * params.Delay * 1000000) = 10 * (params.Delay * 1000000) := by
    rw [wrap64_eq_self] <;> omega
  have hq0 : 0 ≤ params.Delay * 1000000 / params.Threads :=
    Int.ediv_nonneg (by omega) (by omega)
  have hq1 : params.Delay * 1000000 / params.Threads ≤ params.Delay * 1000000 :=
    Int.ediv_le_self _ (by omega)
  have h4 : wrap64 (params.Delay * 1000000 / params.Threads) =
      params.Delay * 1000000 / params.Threads := by
    apply wrap64_eq_self <;> omega
  unfold delays timeDelayStart timeDelayMax Millisecond
  rw [if_neg hT, h1, h2, h3, Int.tdiv_eq_ediv (by omega) (by omega), h4]

theorem isOverload_not_redirect (s : Int) (h : isOverload s = true) :
    isRedirect s = false ∧ s ≠ 0 := by
  simp only [isOverload, Bool.or_eq_true, decide_eq_true_eq] at h
  constructor
  · simp only [isRedirect, Bool.or_eq_false_iff, decide_eq_false_iff_not]
    omega
  · omega

theorem OnError_overload (params : Params) (d : Delays) (c : Collector) (e : Engine)
    (r : Response) (err : Option String) (h : isOverload r.StatusCode = true) :
    (OnError params d c e r err).1.RandomDelay =
      (if e.RandomDelay < d.timeDelayMax then
        wrap64 (e.RandomDelay + wrap64 (d.timeDelayIncDec * 2))
      else e.RandomDelay) := by
  have hs := isOverload_not_redirect _ h
  have h0 : ¬(err.isSome ∧ r.StatusCode = 0) := fun hh => hs.2 hh.2
  unfold OnError
  rw [if_neg h0]
  simp only [hs.1, h, Bool.false_eq_true, if_false, if_true]
  split <;> rfl

theorem foldl_VisitURL_RandomDelay (params : Params) (c : Collector) (links : List Link)
    (a : Engine × Request) :
    (links.foldl (fun (acc : Engine × Request) link => VisitURL params c acc.1 acc.2 link)
      a).1.RandomDelay = a.1.RandomDelay := by
  induction links generalizing a with
  | nil => rfl
  | cons l ls ih =>
    rw [List.foldl_cons, ih, VisitURL_RandomDelay]

theorem OnScraped_RandomDelay (params : Params) (d : Delays) (c : Collector) (e : Engine)
    (r : Response) :
    (OnScraped params d c e r).1.RandomDelay =
      (if r.StatusCode < 400 ∧ e.RandomDelay > d.timeDelayStart then
        wrap64 (e.RandomDelay + wrap64 (-d.timeDelayIncDec))
      else e.RandomDelay) := by
  unfold OnScraped
  by_cases h1 : r.StatusCode < 400 ∧ e.RandomDelay > d.timeDelayStart <;>
  by_cases h2 : Get (e.store.read r.Request.Ctx).canonical ≠ "" ∧
      r.Request.URL ≠ Get (e.store.read r.Request.Ctx).canonical <;>
  cases h3 : (e.store.read r.Ctx).links <;>
  simp [h1, h2, h3, foldl_VisitURL_RandomDelay]

theorem scrapedAll_RandomDelay (params : Params) (d : Delays) (c : Collector)
    (hi : 0 ≤ d.timeDelayIncDec) (h0 : 0 ≤ d.timeDelayStart) :
    ∀ (rs : List Response) (e : Engine) (j : Nat),
      (∀ r ∈ rs, r.StatusCode < 400) →
      e.RandomDelay = d.timeDelayStart + j * d.timeDelayIncDec →
      d.timeDelayStart + j * d.timeDelayIncDec < 9223372036854775808 →
      (scrapedAll params d c e rs).RandomDelay =
        d.timeDelayStart + ((j - rs.length : Nat) : Int) * d.timeDelayIncDec := by
  intro rs
  induction rs with
  | nil =>
    intro e j _ he _
    simpa [scrapedAll] using he
  | cons r rest ih =>
    intro e j hall he hr
    have hrs : r.StatusCode < 400 := hall r (List.mem_cons_self _ _)
    have hrest : ∀ x ∈ rest, x.StatusCode < 400 := fun x hx => hall x (List.mem_cons_of_mem _ hx)
    have hstep := OnScraped_RandomDelay params d c e r
    have hunf : scrapedAll params d c e (r :: rest) =
        scrapedAll params d c (OnScraped params d c e r).1 rest := rfl
    rw [hunf]
    cases j with
    | zero =>
      have hcond : ¬(r.StatusCode < 400 ∧ e.RandomDelay > d.timeDelayStart) := by
        simp only [Nat.cast_zero, zero_mul, add_zero] at he
        omega
      rw [if_neg hcond] at hstep
      rw [ih _ 0 hrest (by rw [hstep]; exact he) hr]
      simp
    | succ k =>
      have hmul : ((k + 1 : Nat) : Int) * d.timeDelayIncDec =
          (k : Int) * d.timeDelayIncDec + d.timeDelayIncDec := by
        push_cast
        ring
      have hk0 : 0 ≤ (k : Int) * d.timeDelayIncDec :=
        Int.mul_nonneg (Int.ofNat_nonneg k) hi
      rw [hmul] at he hr
      have hsub : (k + 1 - (r :: rest).length : Nat) = k - rest.length := by
        simp
      rw [hsub]
      by_cases hz : d.timeDelayIncDec = 0
      · have hcond : ¬(r.StatusCode < 400 ∧ e.RandomDelay > d.timeDelayStart) := by
          rw [hz] at he
          omega
        rw [if_neg hcond] at hstep
        exact ih _ k hrest (by rw [hstep, he]; omega) (by omega)
      · have hcond : r.StatusCode < 400 ∧ e.RandomDelay > d.timeDelayStart := by
          constructor
          · exact hrs
          · omega
        rw [if_pos hcond] at hstep
        have hw1 : wrap64 (-d.timeDelayIncDec) = -d.timeDelayIncDec := by
          apply wrap64_eq_self <;> omega
        have hw2 : wrap64 (e.RandomDelay + -d.timeDelayIncDec) =
            e.RandomDelay + -d.timeDelayIncDec := by
          apply wrap64_eq_self <;> omega
        rw [hw1, hw2] at hstep
        exact ih _ k hrest (by rw [hstep, he]; omega) (by omega)

/-! ## C9: decrease after one overload -/

theorem delays_start_inc (params : Params) (d : Delays) (hD : 0 ≤ params.Delay)
    (hS : params.Delay * 1000000 < 9223372036854775808)
    (hP : 1 ≤ params.Threads) (hd : delays params = some d) :
    d.timeDelayStart = params.Delay * 1000000
      ∧ d.timeDelayIncDec = params.Delay * 1000000 / params.Threads := by
  have hT : params.Threads ≠ 0 := by omega
  have h1 : wrap64 (params.Delay * 1000000) = params.Delay * 1000000 := by
    apply wrap64_eq_self <;> omega
  have hq0 : 0 ≤ params.Delay * 1000000 / params.Threads :=
    Int.ediv_nonneg (by omega) (by omega)
  have hq1 : params.Delay * 1000000 / params.Threads ≤ params.Delay * 1000000 :=
    Int.ediv_le_self _ (by omega)
  have h4 : wrap64 (params.Delay * 1000000 / params.Threads) =
      params.Delay * 1000000 / params.Threads := by
    apply wrap64_eq_self <;> omega
  unfold delays timeDelayStart Millisecond at hd
  rw [if_neg hT, h1, Int.tdiv_eq_ediv (by omega) (by omega), h4] at hd
  injection hd with hd
  subst hd
  exact ⟨rfl, rfl⟩

/-- C9 (as stated, at a delay the program accepts). With `-delay 4200000000000
-threads 1` the initial delay D0 is 4.2e18 ns, the computed maximum has wrapped
around to about 5.1e18 ns, and one 503 response adds 2 * D0 in 64-bit
arithmetic: RandomDelay becomes negative, below D0. -/
theorem long_delay_falls_below_start :
    0 ≤ longDelay.Delay
      ∧ 1 ≤ longDelay.Threads
      ∧ delays longDelay = some longDelays
      ∧ (Engine.initial longDelays).RandomDelay = longDelays.timeDelayStart
      ∧ (OnError longDelay longDelays acceptAll (Engine.initial longDelays) seedUnavailable
          (some "Service Unavailable")).1.RandomDelay = -5846744073709551616
      ∧ ¬ (longDelays.timeDelayStart ≤
          (OnError longDelay longDelays acceptAll (Engine.initial longDelays) seedUnavailable
            (some "Service Unavailable")).1.RandomDelay) := by
  decide

/-- C9 (amended). For every D0 >= 0 and P >= 1 for which the increased delay
D0 + 2 * (D0 / P) fits a 64-bit nanosecond duration (it is below 2^63 ns), and
every L >= 0: starting from RandomDelay = D0, after one overload response
followed by L scraped responses with status < 400, RandomDelay has decreased
from its post-overload value by exactly min(L * (D0 / P), the increase the
overload added), and it is not below D0 after the overload nor after any number
of the scraped responses. -/
theorem decrease_after_one_overload (params : Params) (d : Delays) (c : Collector)
    (e : Engine) (ov : Response) (err : Option String) (rs : List Response)
    (hD : 0 ≤ params.Delay)
    (hR : params.Delay * 1000000 + 2 * (params.Delay * 1000000 / params.Threads) <
      9223372036854775808)
    (hP : 1 ≤ params.Threads)
    (hd : delays params = some d)
    (hov : isOverload ov.StatusCode = true)
    (hrs : ∀ r ∈ rs, r.StatusCode < 400)
    (he : e.RandomDelay = d.timeDelayStart) :
    d.timeDelayStart = params.Delay * 1000000
      ∧ d.timeDelayIncDec = d.timeDelayStart / params.Threads
      ∧ (OnError params d c e ov err).1.RandomDelay -
            (scrapedAll params d c (OnError params d c e ov err).1 rs).RandomDelay =
          min ((rs.length : Int) * (d.timeDelayStart / params.Threads))
            ((OnError params d c e ov err).1.RandomDelay - d.timeDelayStart)
      ∧ d.timeDelayStart ≤ (OnError params d c e ov err).1.RandomDelay
      ∧ d.timeDelayStart ≤
          (scrapedAll params d c (OnError params d c e ov err).1 rs).RandomDelay := by
  have hq0 : 0 ≤ params.Delay * 1000000 / params.Threads :=
    Int.ediv_nonneg (by omega) (by omega)
  obtain ⟨hstart, hinc⟩ := delays_start_inc params d hD (by omega) hP hd
  have hi0 : 0 ≤ d.timeDelayIncDec := by rw [hinc]; exact hq0
  have hs0 : 0 ≤ d.timeDelayStart := by rw [hstart]; omega
  have hfit : d.timeDelayStart + 2 * d.timeDelayIncDec < 9223372036854775808 := by
    rw [hstart, hinc]; exact hR
  have hinc2 : d.timeDelayIncDec = d.timeDelayStart / params.Threads := by
    rw [hinc, hstart]
  rw [← hinc2]
  refine ⟨hstart, rfl, ?_⟩
  have hpost := OnError_overload params d c e ov err hov
  by_cases hlt : e.RandomDelay < d.timeDelayMax
  · rw [if_pos hlt] at hpost
    have hw1 : wrap64 (d.timeDelayIncDec * 2) = d.timeDelayIncDec * 2 := by
      apply wrap64_eq_self <;> omega
    have hw2 : wrap64 (e.RandomDelay + d.timeDelayIncDec * 2) =
        d.timeDelayStart + 2 * d.timeDelayIncDec := by
      rw [wrap64_eq_self] <;> omega
    rw [hw1, hw2] at hpost
    have hfinal := scrapedAll_RandomDelay params d c hi0 hs0 rs
      (OnError params d c e ov err).1 2 hrs (by rw [hpost]; push_cast; ring)
      (by push_cast; omega)
    rw [hpost, hfinal]
    have hnn : 0 ≤ ((2 - rs.length : Nat) : Int) * d.timeDelayIncDec :=
      Int.mul_nonneg (Int.ofNat_nonneg _) hi0
    refine ⟨?_, by omega, by omega⟩
    rcases hL : rs.length with _ | _ | n
    · simp
      exact hi0
    · simp
      omega
    · have hn : 0 ≤ (n : Int) * d.timeDelayIncDec :=
        Int.mul_nonneg (Int.ofNat_nonneg n) hi0
      have hsub : (2 - (n + 1 + 1) : Nat) = 0 := by omega
      rw [hsub]
      have hmul : ((n + 1 + 1 : Nat) : Int) * d.timeDelayIncDec =
          (n : Int) * d.timeDelayIncDec + 2 * d.timeDelayIncDec := by
        push_cast
        ring
      rw [hmul]
      simp only [Nat.cast_zero, zero_mul, add_zero]
      omega
  · rw [if_neg hlt] at hpost
    have hfinal := scrapedAll_RandomDelay params d c hi0 hs0 rs
      (OnError params d c e ov err).1 0 hrs (by rw [hpost, he]; simp)
      (by simp only [Nat.cast_zero, zero_mul, add_zero]; omega)
    rw [hpost, hfinal, he]
    have hL0 : 0 ≤ (rs.length : Int) * d.timeDelayIncDec :=
      Int.mul_nonneg (Int.ofNat_nonneg _) hi0
    simp only [Nat.zero_sub, Nat.cast_zero, zero_mul, add_zero, sub_self]
    exact ⟨(min_eq_right hL0).symm, le_refl _, le_refl _⟩

theorem decrease_after_one_overload_witness :
    slowDelays.timeDelayStart = slowParams.Delay * 1000000
      ∧ slowDelays.timeDelayIncDec = slowDelays.timeDelayStart / slowParams.Threads
      ∧ (OnError slowParams slowDelays acceptAll (Engine.initial slowDelays) seedUnavailable
              (some "Service Unavailable")).1.RandomDelay -
            (scrapedAll slowParams slowDelays acceptAll
              (OnError slowParams slowDelays acceptAll (Engine.initial slowDelays)
                seedUnavailable (some "Service Unavailable")).1
              [seedOK, seedOK, seedOK]).RandomDelay =
          min (([seedOK, seedOK, seedOK].length : Int) *
              (slowDelays.timeDelayStart / slowParams.Threads))
            ((OnError slowParams slowDelays acceptAll (Engine.initial slowDelays)
                seedUnavailable (some "Service Unavailable")).1.RandomDelay -
              slowDelays.timeDelayStart)
      ∧ slowDelays.timeDelayStart ≤
          (OnError slowParams slowDelays acceptAll (Engine.initial slowDelays) seedUnavailable
            (some "Service Unavailable")).1.RandomDelay
      ∧ slowDelays.timeDelayStart ≤
          (scrapedAll slowParams slowDelays acceptAll
            (OnError slowParams slowDelays acceptAll (Engine.initial slowDelays)
              seedUnavailable (some "Service Unavailable")).1
            [seedOK, seedOK, seedOK]).RandomDelay :=
  decrease_after_one_overload slowParams slowDelays acceptAll (Engine.initial slowDelays)
    seedUnavailable (some "Service Unavailable") [seedOK, seedOK, seedOK]
    (by decide) (by decide) (by decide) (by decide) (by decide) (by decide) (by decide)

/-! ## C8: consecutive overloads -/

set_option maxRecDepth 8000

/-- C8 (the code at the command-line defaults). With Delay = 1000 ms and
Threads = 5 the maximum delay `timeDelayMax` is 10000 ms, and the random delay
after 23 consecutive 503 responses is 10200 ms: it exceeds 10 * D0 and differs
from min(D0 + K * 2 * (D0 / P), 10 * D0). -/
theorem overloads_exceed_tenfold_delay :
    delays defaultParams = some defaultDelays
      ∧ (afterErrors defaultParams defaultDelays acceptAll (Engine.initial defaultDelays)
          seedUnavailable (some "Service Unavailable") 23).RandomDelay = 10200 * Millisecond
      ∧ ¬ ((afterErrors defaultParams defaultDelays acceptAll (Engine.initial defaultDelays)
            seedUnavailable (some "Service Unavailable") 23).RandomDelay =
          min (1000 * Millisecond + 23 * 2 * (1000 * Millisecond / 5)) (10 * (1000 * Millisecond)))
      ∧ ¬ ((afterErrors defaultParams defaultDelays acceptAll (Engine.initial defaultDelays)
            seedUnavailable (some "Service Unavailable") 23).RandomDelay ≤
          10 * (1000 * Millisecond)) := by
  decide

theorem ceil_steps_bounds (a step : Int) (ha : 0 ≤ a) (hs : 0 < step) :
    0 ≤ (a + step - 1) / step
      ∧ a ≤ (a + step - 1) / step * step
      ∧ (a + step - 1) / step * step ≤ a + step - 1 := by
  refine ⟨Int.ediv_nonneg (by omega) (by omega), ?_, Int.ediv_mul_le _ (by omega)⟩
  have h := Int.lt_ediv_add_one_mul_self (a + step - 1) hs
  have h2 : ((a + step - 1) / step + 1) * step = (a + step - 1) / step * step + step := by
    ring
  omega

/-- What the overload branch computes over K consecutive overload responses: the
delay grows by 2 * timeDelayIncDec per response for as long as it is below
`timeDelayMax` before the addition, so the last step may end above it. -/
theorem afterErrors_overload_RandomDelay (params : Params) (d : Delays) (c : Collector)
    (e : Engine) (ov : Response) (err : Option String)
    (hov : isOverload ov.StatusCode = true)
    (h0 : 0 ≤ d.timeDelayStart) (hi0 : 0 ≤ d.timeDelayIncDec)
    (hi1 : d.timeDelayIncDec ≤ d.timeDelayStart)
    (hm : d.timeDelayMax = 10 * d.timeDelayStart)
    (hr : 12 * d.timeDelayStart < 9223372036854775808)
    (he : e.RandomDelay = d.timeDelayStart) :
    ∀ K : Nat,
      (afterErrors params d c e ov err K).RandomDelay =
        d.timeDelayStart +
          min (K : Int)
              ((9 * d.timeDelayStart + 2 * d.timeDelayIncDec - 1) / (2 * d.timeDelayIncDec)) *
            (2 * d.timeDelayIncDec) := by
  intro K
  induction K with
  | zero =>
    by_cases hz : d.timeDelayIncDec = 0
    · simp [afterErrors, he, hz]
    · have hb := ceil_steps_bounds (9 * d.timeDelayStart) (2 * d.timeDelayIncDec)
        (by omega) (by omega)
      have hmin : min ((0 : Nat) : Int)
          ((9 * d.timeDelayStart + 2 * d.timeDelayIncDec - 1) / (2 * d.timeDelayIncDec)) = 0 := by
        rw [Nat.cast_zero]
        exact min_eq_left hb.1
      rw [hmin]
      simp [afterErrors, he]
  | succ K ih =>
    have hunf : afterErrors params d c e ov err (K + 1) =
        (OnError params d c (afterErrors params d c e ov err K) ov err).1 := rfl
    rw [hunf, OnError_overload params d c _ ov err hov, ih, hm]
    by_cases hz : d.timeDelayIncDec = 0
    · rw [hz]
      simp only [mul_zero, add_zero]
      have hw : wrap64 (0 * 2) = 0 := by decide
      rw [hw, add_zero]
      split
      · apply wrap64_eq_self <;> omega
      · rfl
    · have hs : 0 < 2 * d.timeDelayIncDec := by omega
      obtain ⟨hN0, hN1, hN2⟩ :=
        ceil_steps_bounds (9 * d.timeDelayStart) (2 * d.timeDelayIncDec) (by omega) hs
      generalize hNdef :
        (9 * d.timeDelayStart + 2 * d.timeDelayIncDec - 1) / (2 * d.timeDelayIncDec) = N
        at hN0 hN1 hN2 ⊢
      have hw : wrap64 (d.timeDelayIncDec * 2) = 2 * d.timeDelayIncDec := by
        rw [wrap64_eq_self] <;> omega
      rw [hw]
      by_cases hlt : (K : Int) < N
      · have hmin1 : min (K : Int) N = K := min_eq_left (by omega)
        have hmin2 : min ((K + 1 : Nat) : Int) N = (K : Int) + 1 := by
          push_cast
          exact min_eq_left (by omega)
        rw [hmin1, hmin2]
        have hmono : ((K : Int) + 1) * (2 * d.timeDelayIncDec) ≤ N * (2 * d.timeDelayIncDec) :=
          Int.mul_le_mul_of_nonneg_right (by omega) (by omega)
        have hexp : ((K : Int) + 1) * (2 * d.timeDelayIncDec) =
            (K : Int) * (2 * d.timeDelayIncDec) + 2 * d.timeDelayIncDec := by
          ring
        have hK0 : 0 ≤ (K : Int) * (2 * d.timeDelayIncDec) :=
          Int.mul_nonneg (Int.ofNat_nonneg K) (by omega)
        rw [if_pos (by omega), hexp, wrap64_eq_self] <;> omega
      · have hmin1 : min (K : Int) N = N := min_eq_right (by omega)
        have hmin2 : min ((K + 1 : Nat) : Int) N = N := by
          push_cast
          exact min_eq_right (by omega)
        rw [hmin1, hmin2, if_neg (by omega)]

/-- As long as the clamp of the specification has nothing to cut, the handler
agrees with it: whenever D0 + K * 2 * (D0 / P) <= 10 * D0 (and 12 * D0 fits a
64-bit nanosecond duration), the random delay after K consecutive overload
responses is min(D0 + K * 2 * (D0 / P), 10 * D0). -/
theorem overloads_within_limit (params : Params) (d : Delays) (c : Collector) (e : Engine)
    (ov : Response) (err : Option String) (K : Nat)
    (hD : 0 ≤ params.Delay)
    (hR : 12 * (params.Delay * 1000000) < 9223372036854775808)
    (hP : 1 ≤ params.Threads)
    (hd : delays params = some d)
    (hov : isOverload ov.StatusCode = true)
    (he : e.RandomDelay = d.timeDelayStart)
    (hle : d.timeDelayStart + K * (2 * (d.timeDelayStart / params.Threads)) ≤
      10 * d.timeDelayStart) :
    (afterErrors params d c e ov err K).RandomDelay =
      min (d.timeDelayStart + K * (2 * (d.timeDelayStart / params.Threads)))
        (10 * d.timeDelayStart) := by
  rw [delays_of_range params hD (by omega) hP] at hd
  injection hd with hd
  subst hd
  dsimp only at he hle ⊢
  have hq0 : 0 ≤ params.Delay * 1000000 / params.Threads :=
    Int.ediv_nonneg (by omega) (by omega)
  have hq1 : params.Delay * 1000000 / params.Threads ≤ params.Delay * 1000000 :=
    Int.ediv_le_self _ (by omega)
  have hform := afterErrors_overload_RandomDelay params
    { timeDelayStart := params.Delay * 1000000
      timeDelayIncDec := params.Delay * 1000000 / params.Threads
      timeDelayMax := 10 * (params.Delay * 1000000) } c e ov err hov
    (by dsimp only; omega) hq0 hq1 rfl hR he K
  dsimp only at hform
  rw [hform, min_eq_left hle]
  by_cases hz : params.Delay * 1000000 / params.Threads = 0
  · rw [hz]
    simp
  · have hs : 0 < 2 * (params.Delay * 1000000 / params.Threads) := by omega
    have hKN : (K : Int) ≤
        (9 * (params.Delay * 1000000) + 2 * (params.Delay * 1000000 / params.Threads) - 1) /
          (2 * (params.Delay * 1000000 / params.Threads)) := by
      by_contra hcon
      have hmono :
          ((9 * (params.Delay * 1000000) +
                2 * (params.Delay * 1000000 / params.Threads) - 1) /
              (2 * (params.Delay * 1000000 / params.Threads)) + 1) *
            (2 * (params.Delay * 1000000 / params.Threads)) ≤
          (K : Int) * (2 * (params.Delay * 1000000 / params.Threads)) :=
        Int.mul_le_mul_of_nonneg_right (by omega) (by omega)
      have hlt := Int.lt_ediv_add_one_mul_self
        (9 * (params.Delay * 1000000) + 2 * (params.Delay * 1000000 / params.Threads) - 1) hs
      omega
    rw [min_eq_left hKN]

/-! ## The redirect scenario of the specification, evaluated -/

/-- The chain `/` -> 301 `/b` -> 301 `/c` from the seed: the second redirect row
carries the seed URL as source, and the context built for `/c` carries
`http://host/b`. -/
theorem redirect_scenario_rows :
    (redirectChain defaultParams defaultDelays acceptAll (Engine.initial defaultDelays)
        seedRequest [(301, "http://host/b"), (301, "http://host/c")]).rows =
      [header,
       ["301", "http://host/", "http://host/b", "", "", "", ""],
       ["301", "http://host/b", "http://host/c", "http://host/", "", "", ""]]
    ∧ (redirectChain defaultParams defaultDelays acceptAll (Engine.initial defaultDelays)
        seedRequest [(301, "http://host/b"), (301, "http://host/c")]).store.read 2 =
      { source := some "http://host/b", redirects := some 2 } := by
  decide

/-! ## C11: the disallowed-URL filter -/

theorem rests_literal (cs : List Char) :
    ∀ (s t : List Char), t ∈ (Regex.literal cs).rests s ↔ s = cs ++ t := by
  induction cs with
  | nil =>
    intro s t
    simp [Regex.literal, Regex.rests, eq_comm]
  | cons c cs ih =>
    intro s t
    cases s with
    | nil => simp [Regex.literal, Regex.rests]
    | cons x xs =>
      by_cases hx : x = c
      · simp [Regex.literal, Regex.rests, hx, ih]
      · simp [Regex.literal, Regex.rests, hx]

theorem rests_endText (s t : List Char) : t ∈ Regex.endText.rests s ↔ s = [] ∧ t = [] := by
  cases s <;> simp [Regex.rests]

theorem rests_lit (c : Char) (s t : List Char) :
    t ∈ (Regex.lit c).rests s ↔ s = c :: t := by
  cases s with
  | nil => simp [Regex.rests]
  | cons x xs =>
    by_cases hx : x = c
    · simp [Regex.rests, hx, eq_comm]
    · simp [Regex.rests, hx]

theorem rests_cat (a b : Regex) (s t : List Char) :
    t ∈ (Regex.cat a b).rests s ↔ ∃ m ∈ a.rests s, t ∈ b.rests m := by
  simp [Regex.rests, List.mem_flatMap]

theorem rests_alt (a b : Regex) (s t : List Char) :
    t ∈ (Regex.alt a b).rests s ↔ t ∈ a.rests s ∨ t ∈ b.rests s := by
  simp [Regex.rests]

theorem imageFilter_rests (s : List Char) :
    (imageFilter.rests s).isEmpty = false ↔ ∃ e ∈ imageExtensions, s = e.data := by
  have hne : (imageFilter.rests s).isEmpty = false ↔ ∃ t, t ∈ imageFilter.rests s := by
    cases h : imageFilter.rests s with
    | nil => simp
    | cons x xs => simp
  rw [hne]
  simp only [imageFilter, rests_cat, rests_alt, rests_lit, rests_literal, rests_endText,
    imageExtensions]
  constructor
  · rintro ⟨t, m, hm, n, hn, hn0, ht⟩
    subst hm hn0
    simp only [List.append_nil] at hn
    rcases hn with h | h | h | h | h | h <;> subst h <;> simp
  · rintro ⟨e, he, hs⟩
    simp only [List.mem_cons, List.mem_singleton, List.not_mem_nil, or_false] at he
    rcases he with h | h | h | h | h | h <;> subst h <;> subst hs <;> simp

theorem MatchString_imageFilter (s : String) :
    imageFilter.MatchString s = true ↔ ∃ e ∈ imageExtensions, e.data <:+ s.data := by
  unfold Regex.MatchString
  rw [List.any_eq_true]
  constructor
  · rintro ⟨t, ht, hm⟩
    rw [List.mem_tails] at ht
    have hm2 : (imageFilter.rests t).isEmpty = false := by simpa using hm
    obtain ⟨e, he, hte⟩ := (imageFilter_rests t).1 hm2
    exact ⟨e, he, hte ▸ ht⟩
  · rintro ⟨e, he, hsuf⟩
    refine ⟨e.data, (List.mem_tails _ _).2 hsuf, ?_⟩
    have := (imageFilter_rests e.data).2 ⟨e, he, rfl⟩
    simp [this]

theorem forbiddenURL_iff (s : String) :
    forbiddenURL s = true ↔ ∃ e ∈ imageExtensions, e.data <:+ s.data := by
  unfold forbiddenURL DisallowedURLFilters
  simp only [List.any_cons, List.any_nil, Bool.or_false]
  exact MatchString_imageFilter s

/-- C11 (as stated, at an upper-case extension). The path of
`http://host/img/a.JPG` ends in `.jpg` when compared case-insensitively, and the
disallowed-URL filter does not match the URL, so the request is not refused. -/
theorem upper_case_extension_not_filtered :
    (∃ e ∈ imageExtensions, e.data <:+ upperCaseImage.Path.data.map Char.toLower)
      ∧ upperCaseImage.toString = "http://host/img/a.JPG"
      ∧ forbiddenURL upperCaseImage.toString = false := by
  decide

/-- The filter is applied to the whole URL string: a query after the extension
keeps the expression from matching. -/
theorem queried_image_not_filtered :
    (∃ e ∈ imageExtensions, e.data <:+ queriedImage.Path.data)
      ∧ queriedImage.toString = "http://host/img/a.jpg?v=2"
      ∧ forbiddenURL queriedImage.toString = false := by
  decide

/-- C11 (amended). For every URL without a query whose path ends in one of .jpg,
.jpeg, .png, .webp, .gif or .svg, written in lower case and compared
case-sensitively, the disallowed-URL filter matches the URL, so the request is
refused before dispatch; and the filter matches a URL string exactly when the
string ends in one of these six lower-case extensions. -/
theorem image_filter_matches (u : URL) (hq : u.RawQuery = "")
    (he : ∃ e ∈ imageExtensions, e.data <:+ u.Path.data) :
    forbiddenURL u.toString = true
      ∧ ∀ s : String, forbiddenURL s = true ↔ ∃ e ∈ imageExtensions, e.data <:+ s.data := by
  refine ⟨?_, forbiddenURL_iff⟩
  rw [forbiddenURL_iff]
  obtain ⟨e, hmem, hsuf⟩ := he
  refine ⟨e, hmem, ?_⟩
  have hdata : u.toString.data = (u.Scheme ++ "://" ++ u.Host).data ++ u.Path.data := by
    simp [URL.toString, hq]
  rw [hdata]
  exact hsuf.trans (List.suffix_append _ _)

theorem image_filter_matches_witness :
    forbiddenURL lowerCaseImage.toString = true :=
  (image_filter_matches lowerCaseImage (by decide) (by decide)).1

/-- With a collector that refuses every URL the filter matches, VisitURL for such
a link records a refused call and leaves the page counter as it was. -/
theorem VisitURL_forbidden (params : Params) (c : Collector) (e : Engine) (r : Request)
    (link : Link)
    (hc : ∀ (earlier : List Dispatch) (req : Request) (url : String),
      forbiddenURL (c.AbsoluteURL req.URL url) = true → c.Visit earlier req url = false)
    (hf : forbiddenURL (c.AbsoluteURL r.URL link.url) = true) :
    (VisitURL params c e r link).1.total = e.total
      ∧ ∀ v ∈ (VisitURL params c e r link).1.visits.drop e.visits.length,
          v.accepted = false := by
  by_cases hg : link.redirects > params.MaxRedirects ∨ e.total > params.MaxPages
  · rw [VisitURL_rejected params c e r link hg]
    simp
  · rw [VisitURL_dispatched params c e r link hg]
    have hv : c.Visit e.visits { r with Ctx := e.store.length } link.url = false :=
      hc e.visits { r with Ctx := e.store.length } link.url hf
    simp [hv]

end Checker
